import Mathlib

/-!
Verification of the cryml diagram validation and parsing pipeline.

The definitions below are a shallow embedding of the TypeScript sources:
JavaScript values reaching the validators (the result of `yaml.parse`) are
modelled by the inductive `Yaml`; a missing property (`undefined`) is an
`Option.none` of a lookup; thrown exceptions are `Except.error`; the mutable
`Map`/`Set` collections are threaded lists.  Machine floats only carry small
integers in every behaviour the theorems touch, so numbers are `Int`.
-/

namespace Cryml

/-- A parsed YAML / JavaScript value as the validators receive it. -/
inductive Yaml where
  | null : Yaml
  | bool : Bool → Yaml
  | num : Int → Yaml
  | str : String → Yaml
  | arr : List Yaml → Yaml
  | obj : List (String × Yaml) → Yaml

mutual

/-- Structural (strict-equality) decision procedure for `Yaml`. -/
def Yaml.decEq : (a b : Yaml) → Decidable (a = b)
  | .null, .null => isTrue rfl
  | .bool a, .bool b =>
    if h : a = b then isTrue (by rw [h]) else isFalse (by intro hh; injection hh; contradiction)
  | .num a, .num b =>
    if h : a = b then isTrue (by rw [h]) else isFalse (by intro hh; injection hh; contradiction)
  | .str a, .str b =>
    if h : a = b then isTrue (by rw [h]) else isFalse (by intro hh; injection hh; contradiction)
  | .arr xs, .arr ys =>
    match Yaml.decEqList xs ys with
    | isTrue h => isTrue (by rw [h])
    | isFalse h => isFalse (by intro hh; injection hh; contradiction)
  | .obj xs, .obj ys =>
    match Yaml.decEqKV xs ys with
    | isTrue h => isTrue (by rw [h])
    | isFalse h => isFalse (by intro hh; injection hh; contradiction)
  | .null, .bool _ | .null, .num _ | .null, .str _ | .null, .arr _ | .null, .obj _
  | .bool _, .null | .bool _, .num _ | .bool _, .str _ | .bool _, .arr _ | .bool _, .obj _
  | .num _, .null | .num _, .bool _ | .num _, .str _ | .num _, .arr _ | .num _, .obj _
  | .str _, .null | .str _, .bool _ | .str _, .num _ | .str _, .arr _ | .str _, .obj _
  | .arr _, .null | .arr _, .bool _ | .arr _, .num _ | .arr _, .str _ | .arr _, .obj _
  | .obj _, .null | .obj _, .bool _ | .obj _, .num _ | .obj _, .str _ | .obj _, .arr _ =>
    isFalse (by intro hh; cases hh)

/-- Element-wise equality decision for lists of `Yaml`. -/
def Yaml.decEqList : (a b : List Yaml) → Decidable (a = b)
  | [], [] => isTrue rfl
  | [], _ :: _ => isFalse (by intro h; cases h)
  | _ :: _, [] => isFalse (by intro h; cases h)
  | x :: xs, y :: ys =>
    match Yaml.decEq x y with
    | isFalse h => isFalse (by intro hh; injection hh; contradiction)
    | isTrue h1 =>
      match Yaml.decEqList xs ys with
      | isTrue h2 => isTrue (by rw [h1, h2])
      | isFalse h => isFalse (by intro hh; injection hh; contradiction)

/-- Entry-wise equality decision for object entry lists. -/
def Yaml.decEqKV : (a b : List (String × Yaml)) → Decidable (a = b)
  | [], [] => isTrue rfl
  | [], _ :: _ => isFalse (by intro h; cases h)
  | _ :: _, [] => isFalse (by intro h; cases h)
  | (k, v) :: xs, (l, w) :: ys =>
    if hk : k = l then
      match Yaml.decEq v w with
      | isFalse h => isFalse (by intro hh; injection hh with h1 h2; injection h1; contradiction)
      | isTrue hv =>
        match Yaml.decEqKV xs ys with
        | isTrue ht => isTrue (by rw [hk, hv, ht])
        | isFalse h => isFalse (by intro hh; injection hh; contradiction)
    else isFalse (by intro hh; injection hh with h1 h2; injection h1; contradiction)

end

instance : DecidableEq Yaml := Yaml.decEq

/-- JavaScript truthiness of a value (`undefined` is handled by `truthyOpt`). -/
def jsTruthy : Yaml → Bool
  | .null => false
  | .bool b => b
  | .num n => n != 0
  | .str s => s != ""
  | .arr _ => true
  | .obj _ => true

/-- `typeof v === 'object'` (true for `null`, arrays and plain objects). -/
def isObjType : Yaml → Bool
  | .null => true
  | .arr _ => true
  | .obj _ => true
  | _ => false

/-- Property access `v.k`: `none` models JavaScript `undefined`. -/
def Yaml.lookup? : Yaml → String → Option Yaml
  | .obj kvs, k => (kvs.find? (fun p => p.1 = k)).map Prod.snd
  | _, _ => none

/-- Truthiness of a possibly-`undefined` value. -/
def truthyOpt : Option Yaml → Bool
  | none => false
  | some v => jsTruthy v

/-- Optional chaining `v?.k` on a possibly-`undefined` base. -/
def chain? (o : Option Yaml) (k : String) : Option Yaml :=
  o.bind (fun v => v.lookup? k)

/-- `Object.entries(v)` for the values the validators feed it. -/
def objEntries : Yaml → List (String × Yaml)
  | .obj kvs => kvs
  | .arr xs => (xs.enum).map (fun p => (toString p.1, p.2))
  | _ => []

/-- `Object.keys(v)`. -/
def objKeys (v : Yaml) : List String := (objEntries v).map Prod.fst

/-- `Object.values(v)`. -/
def objValues (v : Yaml) : List Yaml := (objEntries v).map Prod.snd

mutual

/-- JavaScript string coercion as used by template literals. -/
def jsToString : Yaml → String
  | .null => "null"
  | .bool b => if b then "true" else "false"
  | .num n => toString n
  | .str s => s
  | .arr xs => String.intercalate "," (jsToStringList xs)
  | .obj _ => "[object Object]"

/-- String coercion of each element of an array value. -/
def jsToStringList : List Yaml → List String
  | [] => []
  | x :: xs => jsToString x :: jsToStringList xs

end

/-- Template-literal coercion of a possibly-`undefined` value. -/
def jsToStringOpt : Option Yaml → String
  | none => "undefined"
  | some v => jsToString v

/-! ## Validation result types (webview/validators/types.ts) -/

/-- The `DiagramType` union from types/diagrams.ts. -/
inductive DiagramType where
  | erd : DiagramType
  | sequence : DiagramType
  | flow : DiagramType
deriving DecidableEq

instance {ε α : Type} [DecidableEq ε] [DecidableEq α] : DecidableEq (Except ε α) := by
  intro a b
  cases a <;> cases b
  case error.error e f => exact if h : e = f then isTrue (by rw [h]) else isFalse (by intro hh; injection hh; contradiction)
  case error.ok _ _ => exact isFalse (by intro hh; cases hh)
  case ok.error _ _ => exact isFalse (by intro hh; cases hh)
  case ok.ok x y => exact if h : x = y then isTrue (by rw [h]) else isFalse (by intro hh; injection hh; contradiction)

/-- The `ErrorCode` union. -/
inductive ErrorCode where
  | MISSING_DIAGRAM_TYPE | INVALID_DIAGRAM_TYPE | MISSING_METADATA | MISSING_METADATA_NAME
  | FK_TABLE_NOT_FOUND | FK_COLUMN_NOT_FOUND | CIRCULAR_DEPENDENCY
  | PARTICIPANT_NOT_FOUND | MESSAGE_NOT_FOUND | INVALID_SEQUENCE_ORDER
  | DUPLICATE_PARTICIPANT_ID | DUPLICATE_MESSAGE_ID | MISSING_BLOCK_CONDITION
  | NODE_NOT_FOUND | UNREACHABLE_NODE | DUPLICATE_NODE_ID | DUPLICATE_EDGE_ID
  | MULTIPLE_START_NODES | NO_START_NODE
deriving DecidableEq

/-- The `WarningCode` union. -/
inductive WarningCode where
  | MISSING_PRIMARY_KEY | FK_WITHOUT_INDEX | UNUSED_PARTICIPANT
  | DECISION_FEW_BRANCHES | MISSING_CONDITION | FORK_JOIN_MISMATCH | COMPLEX_DIAGRAM
deriving DecidableEq

/-- A validation error (`level` is always `'error'` and is left implicit). -/
structure ValidationError where
  code : ErrorCode
  message : String
  path : String
  suggestion : String
deriving DecidableEq

/-- A validation warning (`level` is always `'warning'`). -/
structure ValidationWarning where
  code : WarningCode
  message : String
  path : String
  suggestion : String
deriving DecidableEq

/-- The aggregated validation result. -/
structure ValidationResult where
  isValid : Bool
  errors : List ValidationError
  warnings : List ValidationWarning
  diagramType : DiagramType
deriving DecidableEq

/-- `ERROR_MESSAGES`. -/
def ERROR_MESSAGES : ErrorCode → String
  | .MISSING_DIAGRAM_TYPE => "Missing required field: diagram_type"
  | .INVALID_DIAGRAM_TYPE => "Invalid diagram_type. Must be one of: erd, sequence, flow"
  | .MISSING_METADATA => "Missing required field: metadata"
  | .MISSING_METADATA_NAME => "Missing required field: metadata.name"
  | .FK_TABLE_NOT_FOUND => "Foreign key references non-existent table"
  | .FK_COLUMN_NOT_FOUND => "Foreign key references non-existent column"
  | .CIRCULAR_DEPENDENCY => "Circular foreign key dependency detected"
  | .PARTICIPANT_NOT_FOUND => "Message references non-existent participant"
  | .MESSAGE_NOT_FOUND => "Block references non-existent message"
  | .INVALID_SEQUENCE_ORDER => "sequence_order must be sequential starting from 1"
  | .DUPLICATE_PARTICIPANT_ID => "Duplicate participant ID"
  | .DUPLICATE_MESSAGE_ID => "Duplicate message ID"
  | .MISSING_BLOCK_CONDITION => "Block type requires a condition"
  | .NODE_NOT_FOUND => "Edge references non-existent node"
  | .UNREACHABLE_NODE => "Node is not reachable from any start node"
  | .DUPLICATE_NODE_ID => "Duplicate node ID"
  | .DUPLICATE_EDGE_ID => "Duplicate edge ID"
  | .MULTIPLE_START_NODES => "Multiple start nodes detected"
  | .NO_START_NODE => "No start node found"

/-- `WARNING_MESSAGES`. -/
def WARNING_MESSAGES : WarningCode → String
  | .MISSING_PRIMARY_KEY => "Model does not have a primary key"
  | .FK_WITHOUT_INDEX => "Foreign key field lacks an index"
  | .UNUSED_PARTICIPANT => "Participant has no messages"
  | .DECISION_FEW_BRANCHES => "Decision node should have at least 2 outgoing edges"
  | .MISSING_CONDITION => "Decision node has edges without conditions"
  | .FORK_JOIN_MISMATCH => "Fork nodes count does not match join nodes count"
  | .COMPLEX_DIAGRAM => "Flow diagram has many nodes - consider using groups"

/-- The error half of `SUGGESTIONS`. -/
def errorSuggestion : ErrorCode → String
  | .MISSING_DIAGRAM_TYPE => "Add: diagram_type: erd | sequence | flow"
  | .INVALID_DIAGRAM_TYPE => "Use one of: erd, sequence, flow"
  | .MISSING_METADATA => "Add: metadata: \x7b name: \"Diagram Name\" \x7d"
  | .MISSING_METADATA_NAME => "Add: metadata.name: \"Diagram Name\""
  | .FK_TABLE_NOT_FOUND => "Check the table name or create the referenced table"
  | .FK_COLUMN_NOT_FOUND => "Check the column name or create the referenced column"
  | .CIRCULAR_DEPENDENCY => "Redesign your schema to avoid circular references"
  | .PARTICIPANT_NOT_FOUND => "Check participant ID or add the participant"
  | .MESSAGE_NOT_FOUND => "Check message ID in block.messages array"
  | .INVALID_SEQUENCE_ORDER => "Ensure sequence_order values are 1, 2, 3, ..."
  | .DUPLICATE_PARTICIPANT_ID => "Use unique IDs for each participant"
  | .DUPLICATE_MESSAGE_ID => "Use unique IDs for each message"
  | .MISSING_BLOCK_CONDITION => "Add: condition: \"some condition\""
  | .NODE_NOT_FOUND => "Check node ID in edge source/target"
  | .UNREACHABLE_NODE => "Ensure all nodes are reachable from start nodes"
  | .DUPLICATE_NODE_ID => "Use unique IDs for each node"
  | .DUPLICATE_EDGE_ID => "Use unique IDs for each edge"
  | .MULTIPLE_START_NODES => "Use only one start node in your flow"
  | .NO_START_NODE => "Add a node with type: start"

/-- The warning half of `SUGGESTIONS`. -/
def warningSuggestion : WarningCode → String
  | .MISSING_PRIMARY_KEY => "Add a field with attributes.primary_key: true"
  | .FK_WITHOUT_INDEX => "Consider adding an index for better query performance"
  | .UNUSED_PARTICIPANT => "Remove unused participants or add messages involving them"
  | .DECISION_FEW_BRANCHES => "Add at least 2 outgoing edges for decision branches"
  | .MISSING_CONDITION => "Add condition to edges: condition: \"condition text\""
  | .FORK_JOIN_MISMATCH => "Ensure each fork has a corresponding join node"
  | .COMPLEX_DIAGRAM => "Break down complex flows into smaller groups"

/-- `createError` (the `details` argument is optional in the source). -/
def createError (code : ErrorCode) (path : String) (details : Option String) : ValidationError :=
  { code := code
    message := match details with
      | some d => ERROR_MESSAGES code ++ ": " ++ d
      | none => ERROR_MESSAGES code
    path := path
    suggestion := errorSuggestion code }

/-- `createWarning`. -/
def createWarning (code : WarningCode) (path : String) (details : Option String) : ValidationWarning :=
  { code := code
    message := match details with
      | some d => WARNING_MESSAGES code ++ ": " ++ d
      | none => WARNING_MESSAGES code
    path := path
    suggestion := warningSuggestion code }

/-- `aggregateResults`. -/
def aggregateResults (errors : List ValidationError) (warnings : List ValidationWarning)
    (diagramType : DiagramType) : ValidationResult :=
  { isValid := errors.isEmpty
    errors := errors
    warnings := warnings
    diagramType := diagramType }

/-! ## Guard helpers shared by the validators -/

/-- The recurring JavaScript guard `x && typeof x === 'object'`
(equivalently the negation of `!x || typeof x !== 'object'`). -/
def truthyObj (v : Yaml) : Bool := jsTruthy v && isObjType v

/-- The guard `o && typeof o === 'object'` on a possibly-`undefined` value. -/
def truthyObjOpt : Option Yaml → Bool
  | some v => truthyObj v
  | none => false

/-- The guard `o && typeof o === 'string'` on a possibly-`undefined` value:
a present, non-empty string. -/
def truthyStrOpt : Option Yaml → Bool
  | some (.str s) => s != ""
  | _ => false

/-- The guard `Array.isArray o` on a possibly-`undefined` value (arrays are
always truthy, so `!o || !Array.isArray(o)` is its negation). -/
def isArrOpt : Option Yaml → Bool
  | some (.arr _) => true
  | _ => false

/-- Whether a value is a JavaScript boolean. -/
def isBoolVal : Yaml → Bool
  | .bool _ => true
  | _ => false

/-- Whether a value is a JavaScript number. -/
def isNumVal : Yaml → Bool
  | .num _ => true
  | _ => false

/-! ## Structure validator (webview/validators/structureValidator.ts) -/

/-- Structural checks of one ERD field (the body of the field loop of
`validateERDStructure`). -/
def erdFieldStructureErrors (fieldPath : String) (fv : Yaml) : List ValidationError :=
  if ¬ truthyObj fv then
    [createError .MISSING_METADATA fieldPath (some "Field must be an object")]
  else
    (if truthyStrOpt (fv.lookup? "field_type") then []
     else [createError .MISSING_METADATA (fieldPath ++ ".field_type")
            (some "Field must have a \"field_type\" string")])
    ++ (match fv.lookup? "constraints" with
        | none => []
        | some c =>
          if ¬ isObjType c then
            [createError .MISSING_METADATA (fieldPath ++ ".constraints")
              (some "Constraints must be an object")]
          else match c.lookup? "not_null" with
            | none => []
            | some nn =>
              if isBoolVal nn then []
              else [createError .MISSING_METADATA (fieldPath ++ ".constraints.not_null")
                     (some "not_null must be a boolean")])
    ++ (match fv.lookup? "attributes" with
        | none => []
        | some a =>
          if ¬ isObjType a then
            [createError .MISSING_METADATA (fieldPath ++ ".attributes")
              (some "Attributes must be an object")]
          else
            (match a.lookup? "foreign_key" with
             | none => []
             | some fk =>
               if ¬ isObjType fk then
                 [createError .MISSING_METADATA (fieldPath ++ ".attributes.foreign_key")
                   (some "foreign_key must be an object")]
               else
                 (if truthyStrOpt (fk.lookup? "table") then []
                  else [createError .MISSING_METADATA (fieldPath ++ ".attributes.foreign_key.table")
                         (some "foreign_key must have a \"table\" string")])
                 ++ (if truthyStrOpt (fk.lookup? "column") then []
                     else [createError .MISSING_METADATA (fieldPath ++ ".attributes.foreign_key.column")
                            (some "foreign_key must have a \"column\" string")]))
            ++ (["primary_key", "unique", "virtual", "is_list"].flatMap (fun attr =>
                 match a.lookup? attr with
                 | none => []
                 | some v =>
                   if isBoolVal v then []
                   else [createError .MISSING_METADATA (fieldPath ++ ".attributes." ++ attr)
                          (some (attr ++ " must be a boolean"))])))

/-- Structural checks of one entry of a model's `indexes` array. -/
def erdIndexStructureErrors (modelPath : String) (i : Nat) (index : Yaml) : List ValidationError :=
  let indexPath := s!"{modelPath}.indexes[{i}]"
  if ¬ truthyObj index then
    [createError .MISSING_METADATA indexPath (some "Index must be an object")]
  else
    (if truthyStrOpt (index.lookup? "index_name") then []
     else [createError .MISSING_METADATA (indexPath ++ ".index_name")
            (some "Index must have an \"index_name\" string")])
    ++ (if isArrOpt (index.lookup? "columns") then []
        else [createError .MISSING_METADATA (indexPath ++ ".columns")
               (some "Index must have a \"columns\" array")])
    ++ (match index.lookup? "unique" with
        | none => []
        | some v =>
          if isBoolVal v then []
          else [createError .MISSING_METADATA (indexPath ++ ".unique")
                 (some "Index unique must be a boolean")])

/-- Structural checks of one entry of a model's `unique_constraints` array. -/
def erdUniqueConstraintStructureErrors (modelPath : String) (i : Nat) (uc : Yaml) :
    List ValidationError :=
  let ucPath := s!"{modelPath}.unique_constraints[{i}]"
  if ¬ truthyObj uc then
    [createError .MISSING_METADATA ucPath (some "Unique constraint must be an object")]
  else
    (if truthyStrOpt (uc.lookup? "constraint_name") then []
     else [createError .MISSING_METADATA (ucPath ++ ".constraint_name")
            (some "Unique constraint must have a \"constraint_name\" string")])
    ++ (if isArrOpt (uc.lookup? "columns") then []
        else [createError .MISSING_METADATA (ucPath ++ ".columns")
               (some "Unique constraint must have a \"columns\" array")])

/-- Structural checks of one ERD model (the body of the model loop of
`validateERDStructure`). -/
def erdModelStructureErrors (modelName : String) (mv : Yaml) : List ValidationError :=
  let modelPath := "models." ++ modelName
  if ¬ truthyObj mv then
    [createError .MISSING_METADATA modelPath (some "Model must be an object")]
  else if ¬ truthyObjOpt (mv.lookup? "fields") then
    [createError .MISSING_METADATA (modelPath ++ ".fields")
      (some "Model must have a \"fields\" object")]
  else
    ((objEntries ((mv.lookup? "fields").getD .null)).flatMap (fun p =>
       erdFieldStructureErrors (modelPath ++ ".fields." ++ p.1) p.2))
    ++ (match mv.lookup? "indexes" with
        | none => []
        | some ix =>
          match ix with
          | .arr xs => xs.enum.flatMap (fun p => erdIndexStructureErrors modelPath p.1 p.2)
          | _ => [createError .MISSING_METADATA (modelPath ++ ".indexes")
                   (some "indexes must be an array")])
    ++ (match mv.lookup? "unique_constraints" with
        | none => []
        | some uc =>
          match uc with
          | .arr xs =>
            xs.enum.flatMap (fun p => erdUniqueConstraintStructureErrors modelPath p.1 p.2)
          | _ => [createError .MISSING_METADATA (modelPath ++ ".unique_constraints")
                   (some "unique_constraints must be an array")])

/-- Structural checks of the optional top-level `enums` object. -/
def erdEnumsStructureErrors (d : Yaml) : List ValidationError :=
  match d.lookup? "enums" with
  | none => []
  | some e =>
    if ¬ isObjType e then
      [createError .MISSING_METADATA "enums" (some "enums must be an object")]
    else
      (objEntries e).flatMap (fun p =>
        let enumPath := "enums." ++ p.1
        if ¬ truthyObj p.2 then
          [createError .MISSING_METADATA enumPath (some "Enum must be an object")]
        else match p.2.lookup? "values" with
          | some (.arr vals) =>
            vals.enum.flatMap (fun q =>
              let valPath := s!"{enumPath}.values[{q.1}]"
              if ¬ truthyObj q.2 then
                [createError .MISSING_METADATA valPath (some "Enum value must be an object")]
              else if truthyStrOpt (q.2.lookup? "value_name") then []
              else [createError .MISSING_METADATA (valPath ++ ".value_name")
                     (some "Enum value must have a \"value_name\" string")])
          | _ => [createError .MISSING_METADATA (enumPath ++ ".values")
                   (some "Enum must have a \"values\" array")])

/-- `validateERDStructure`. -/
def validateERDStructure (d : Yaml) : List ValidationError :=
  match d.lookup? "models" with
  | some m =>
    if truthyObj m then
      ((objEntries m).flatMap (fun p => erdModelStructureErrors p.1 p.2))
      ++ erdEnumsStructureErrors d
    else
      [createError .MISSING_METADATA "models" (some "ERD diagrams require a \"models\" object")]
  | none =>
    [createError .MISSING_METADATA "models" (some "ERD diagrams require a \"models\" object")]

/-- The fixed list of valid flow node types. -/
def flowValidNodeTypes : List String :=
  ["start", "end", "process", "decision", "data", "database", "document", "fork", "join"]

/-- The node loop of `validateFlowStructure`: returns the accumulated errors,
the final set of seen node ids, and the number of start nodes counted. -/
def flowNodesLoop : Nat → List String → List Yaml →
    List ValidationError × List String × Nat
  | _, seen, [] => ([], seen, 0)
  | i, seen, node :: rest =>
    let path := s!"nodes[{i}]"
    if ¬ truthyObj node then
      let r := flowNodesLoop (i + 1) seen rest
      ([createError .MISSING_METADATA path (some "Node must be an object")] ++ r.1, r.2)
    else
      let idStep : List ValidationError × List String :=
        match node.lookup? "id" with
        | some (.str s) =>
          if s = "" then
            ([createError .MISSING_METADATA (path ++ ".id") (some "Node must have an \"id\" string")], seen)
          else if s ∈ seen then
            ([createError .DUPLICATE_NODE_ID (path ++ ".id") (some ("Duplicate node ID: " ++ s))], seen)
          else ([], s :: seen)
        | _ =>
          ([createError .MISSING_METADATA (path ++ ".id") (some "Node must have an \"id\" string")], seen)
      let typeStep : List ValidationError × Nat :=
        match node.lookup? "type" with
        | some (.str t) =>
          if t ∈ flowValidNodeTypes then ([], if t = "start" then 1 else 0)
          else
            ([createError .MISSING_METADATA (path ++ ".type")
               (some ("Node type must be one of: " ++ String.intercalate ", " flowValidNodeTypes))], 0)
        | _ =>
          ([createError .MISSING_METADATA (path ++ ".type")
             (some ("Node type must be one of: " ++ String.intercalate ", " flowValidNodeTypes))], 0)
      let labelErrs : List ValidationError :=
        if truthyStrOpt (node.lookup? "label") then []
        else [createError .MISSING_METADATA (path ++ ".label") (some "Node must have a \"label\" string")]
      let posErrs : List ValidationError :=
        match node.lookup? "position" with
        | some pos =>
          if ¬ truthyObj pos then
            [createError .MISSING_METADATA (path ++ ".position") (some "Node must have a \"position\" object")]
          else
            (match pos.lookup? "x" with
             | some (.num _) => []
             | _ => [createError .MISSING_METADATA (path ++ ".position.x") (some "position.x must be a number")])
            ++ (match pos.lookup? "y" with
                | some (.num _) => []
                | _ => [createError .MISSING_METADATA (path ++ ".position.y") (some "position.y must be a number")])
        | none =>
          [createError .MISSING_METADATA (path ++ ".position") (some "Node must have a \"position\" object")]
      let r := flowNodesLoop (i + 1) idStep.2 rest
      (idStep.1 ++ typeStep.1 ++ labelErrs ++ posErrs ++ r.1, r.2.1, typeStep.2 + r.2.2)

/-- The edge loop of `validateFlowStructure`. -/
def flowEdgesLoop : Nat → List String → List Yaml → List ValidationError
  | _, _, [] => []
  | i, seen, edge :: rest =>
    let path := s!"edges[{i}]"
    if ¬ truthyObj edge then
      [createError .MISSING_METADATA path (some "Edge must be an object")]
      ++ flowEdgesLoop (i + 1) seen rest
    else
      let idStep : List ValidationError × List String :=
        match edge.lookup? "id" with
        | some (.str s) =>
          if s = "" then
            ([createError .MISSING_METADATA (path ++ ".id") (some "Edge must have an \"id\" string")], seen)
          else if s ∈ seen then
            ([createError .DUPLICATE_EDGE_ID (path ++ ".id") (some ("Duplicate edge ID: " ++ s))], seen)
          else ([], s :: seen)
        | _ =>
          ([createError .MISSING_METADATA (path ++ ".id") (some "Edge must have an \"id\" string")], seen)
      let srcErrs : List ValidationError :=
        if truthyStrOpt (edge.lookup? "source") then []
        else [createError .MISSING_METADATA (path ++ ".source") (some "Edge must have a \"source\" string")]
      let tgtErrs : List ValidationError :=
        if truthyStrOpt (edge.lookup? "target") then []
        else [createError .MISSING_METADATA (path ++ ".target") (some "Edge must have a \"target\" string")]
      idStep.1 ++ srcErrs ++ tgtErrs ++ flowEdgesLoop (i + 1) idStep.2 rest

/-- The error for a flow diagram with no `start` node. -/
def noStartNodeError : ValidationError :=
  createError .NO_START_NODE "nodes"
    (some "Flow diagram must have at least one node with type: start")

/-- The error for a flow diagram with more than one `start` node. -/
def multipleStartNodesError : ValidationError :=
  createError .MULTIPLE_START_NODES "nodes"
    (some "Flow diagram should have only one start node")

/-- `validateFlowStructure`. -/
def validateFlowStructure (d : Yaml) : List ValidationError :=
  (match d.lookup? "nodes" with
   | some (.arr ns) =>
     let r := flowNodesLoop 0 [] ns
     r.1 ++
       (if r.2.2 = 0 then [noStartNodeError]
        else if r.2.2 > 1 then [multipleStartNodesError]
        else [])
   | _ => [createError .MISSING_METADATA "nodes" (some "Flow diagrams require a \"nodes\" array")])
  ++ (match d.lookup? "edges" with
      | some (.arr es) => flowEdgesLoop 0 [] es
      | _ => [createError .MISSING_METADATA "edges" (some "Flow diagrams require an \"edges\" array")])

/-! ## Layout validator (webview/validators/layoutValidator.ts), sequence part -/

/-- The numeric sort key `(m.sequence_order || 0)` of a message. -/
def seqSortKey (m : Yaml) : Int :=
  match m.lookup? "sequence_order" with
  | some (.num n) => n
  | _ => 0

/-- Insertion into an ascending run that keeps an equal-keyed newcomer after
existing entries, as a stable `Array.prototype.sort` does. -/
def stableInsertBy (le : Yaml → Yaml → Bool) : List Yaml → Yaml → List Yaml
  | [], x => [x]
  | y :: ys, x => if le y x then y :: stableInsertBy le ys x else x :: y :: ys

/-- Stable sort modelling `[...messages].sort((a, b) => (a.sequence_order || 0) - (b.sequence_order || 0))`. -/
def stableSortBy (le : Yaml → Yaml → Bool) (l : List Yaml) : List Yaml :=
  l.foldl (stableInsertBy le) []

/-- The element filter `m && typeof m === 'object'` applied to `messages`. -/
def seqObjMessages (ms : List Yaml) : List Yaml := ms.filter truthyObj

/-- The messages sorted by `sequence_order`. -/
def seqSorted (ms : List Yaml) : List Yaml :=
  stableSortBy (fun a b => seqSortKey a ≤ seqSortKey b) (seqObjMessages ms)

/-- The error reported at the first out-of-sequence position: it names the
expected value `i + 1`, the actual value found, and the 0-indexed position. -/
def seqMismatchError (i : Nat) (m : Yaml) : ValidationError :=
  let expected : Int := (i : Int) + 1
  let actual := jsToStringOpt (m.lookup? "sequence_order")
  createError .INVALID_SEQUENCE_ORDER "messages"
    (some s!"sequence_order must be sequential starting from 1 (expected {expected}, found {actual} at position {i})")

/-- The sequential-order walk of `validateSequenceLayout`: stops at the first
position whose `sequence_order` is not `i + 1`. -/
def seqWalk : Nat → List Yaml → List ValidationError
  | _, [] => []
  | i, m :: rest =>
    if m.lookup? "sequence_order" = some (.num ((i : Int) + 1)) then seqWalk (i + 1) rest
    else [seqMismatchError i m]

/-- The duplicate-`sequence_order` error. -/
def seqDupError : ValidationError :=
  createError .INVALID_SEQUENCE_ORDER "messages"
    (some "Duplicate sequence_order values detected")

/-- The duplicate check of `validateSequenceLayout`: compares the number of
order values against the size of their set. -/
def seqDupErrors (ms : List Yaml) : List ValidationError :=
  let orderValues := (seqObjMessages ms).map (fun m => m.lookup? "sequence_order")
  if orderValues.length ≠ orderValues.dedup.length then [seqDupError] else []

/-- `validateSequenceLayout`. -/
def validateSequenceLayout (d : Yaml) : List ValidationError :=
  match d.lookup? "messages" with
  | some (.arr ms) => seqWalk 0 (seqSorted ms) ++ seqDupErrors ms
  | _ => []

/-! ## Depth-first traversals

The layout validator's recursive closures `traverse` (flow reachability) and
`hasCycle` (ERD cycle detection) terminate in JavaScript because the visited
set only grows; the embeddings carry an explicit fuel argument that the
callers instantiate above the number of visitable values. -/

/-- The flow reachability closure `traverse`: visit `n`, then its neighbours,
threading the shared `reachable` set. -/
def dfsVisit {α : Type} [DecidableEq α] (adj : α → List α) :
    Nat → List α → α → List α
  | 0, vis, _ => vis
  | fuel + 1, vis, n =>
    if n ∈ vis then vis
    else (adj n).foldl (dfsVisit adj fuel) (n :: vis)

/-- The ERD closure `hasCycle`: recursion-stack membership means a back edge;
already-visited nodes are skipped; otherwise the node is marked visited,
pushed on the stack, and its dependencies are scanned with an early `true`
return.  Returns the verdict and the updated shared visited set. -/
def dfsCycle {α : Type} [DecidableEq α] (adj : α → List α) :
    Nat → List α → List α → α → Bool × List α
  | 0, _, vis, _ => (false, vis)
  | fuel + 1, stk, vis, n =>
    if n ∈ stk then (true, vis)
    else if n ∈ vis then (false, vis)
    else (adj n).foldl
      (fun acc d => if acc.1 then acc else dfsCycle adj fuel (n :: stk) acc.2 d)
      (false, n :: vis)

/-- A finish trace of a cycle-free depth-first search: each recorded node's
successors were all finished strictly earlier (they appear in the tail). -/
def GoodFinish {α : Type} (adj : α → List α) : List α → Prop
  | [] => True
  | u :: F => (∀ d ∈ adj u, d ∈ F) ∧ GoodFinish adj F

/-- The recursion stack of `hasCycle` is a chain of edges ending at the
current node: the top of the stack steps to `n`, and so on downwards. -/
def StackChain {α : Type} (adj : α → List α) : List α → α → Prop
  | [], _ => True
  | s :: stk, n => n ∈ adj s ∧ StackChain adj stk s

/-! ## Layout validator, ERD part -/

/-- The dependency contributed by one field when building the ERD graph:
`field && field.attributes && field.attributes.foreign_key &&
field.attributes.foreign_key.table`, restricted to known models and with
self-references excluded. -/
def erdFieldDep (modelNames : List String) (modelName : String) (field : Yaml) :
    Option String :=
  if ¬ jsTruthy field then none
  else if ¬ truthyOpt (field.lookup? "attributes") then none
  else
    let fk := chain? (field.lookup? "attributes") "foreign_key"
    if ¬ truthyOpt fk then none
    else
      match chain? fk "table" with
      | some (.str t) =>
        if t ≠ "" ∧ t ∈ modelNames ∧ t ≠ modelName then some t else none
      | _ => none

/-- The adjacency (`dependencies`) map of the ERD foreign-key graph. -/
def erdAdj (d : Yaml) (m : String) : List String :=
  match d.lookup? "models" with
  | some mv =>
    match (objEntries mv).find? (fun p => p.1 = m) with
    | some entry =>
      if truthyObjOpt (entry.2.lookup? "fields") then
        (objValues ((entry.2.lookup? "fields").getD .null)).filterMap
          (erdFieldDep (objKeys mv) m)
      else []
    | none => []
  | none => []

/-- The model loop of `validateERDLayout`: run `hasCycle` on each model with
the shared visited set, stopping at the first model found in a cycle. -/
def erdFindCycle (adj : String → List String) (fuel : Nat) :
    List String → List String → Option String
  | _, [] => none
  | vis, m :: ms =>
    let r := dfsCycle adj fuel [] vis m
    if r.1 then some m else erdFindCycle adj fuel r.2 ms

/-- The foreign-key dependency edge of the claim: model `m` depends on model
`t` whenever some field of `m` carries a truthy `foreign_key` whose `table`
is the non-empty string `t`, `t` names an existing model, and `t ≠ m`
(self-references excluded). -/
def ErdEdge (kvs : List (String × Yaml)) (m t : String) : Prop :=
  ∃ mv, (m, mv) ∈ kvs ∧ truthyObjOpt (mv.lookup? "fields") ∧
    ∃ f ∈ objValues ((mv.lookup? "fields").getD .null),
      jsTruthy f ∧ truthyOpt (f.lookup? "attributes") ∧
      truthyOpt (chain? (f.lookup? "attributes") "foreign_key") ∧
      chain? (chain? (f.lookup? "attributes") "foreign_key") "table" = some (.str t) ∧
      t ≠ "" ∧ t ∈ kvs.map Prod.fst ∧ t ≠ m

/-- The single `CIRCULAR_DEPENDENCY` error naming the first model found in a
cycle. -/
def circularDependencyError (modelName : String) : ValidationError :=
  createError .CIRCULAR_DEPENDENCY ("models." ++ modelName)
    (some ("Circular foreign key dependency detected involving: " ++ modelName))

/-- `validateERDLayout`. -/
def validateERDLayout (d : Yaml) : List ValidationError :=
  match d.lookup? "models" with
  | some m =>
    if truthyObj m then
      let modelNames := objKeys m
      match erdFindCycle (erdAdj d) (modelNames.length + 1) [] modelNames with
      | some modelName => [circularDependencyError modelName]
      | none => []
    else []
  | none => []

/-! ## Layout validator, flow part -/

/-- The element filter `n && typeof n === 'object'` applied to `nodes`. -/
def flowObjNodes (ns : List Yaml) : List Yaml := ns.filter truthyObj

/-- The `nodeIds` set (ids of object nodes; a missing `id` is `none`). -/
def flowNodeIds (ns : List Yaml) : List (Option Yaml) :=
  (flowObjNodes ns).map (fun n => n.lookup? "id")

/-- The adjacency map built from `edges`: targets are appended, in edge
order, to the bucket of a source that is a known node id; both endpoints
must be truthy. -/
def flowAdj (d : Yaml) (v : Option Yaml) : List (Option Yaml) :=
  match d.lookup? "nodes", d.lookup? "edges" with
  | some (.arr ns), some (.arr es) =>
    if v ∈ flowNodeIds ns then
      es.filterMap (fun e =>
        if truthyObj e then
          let s := e.lookup? "source"
          let t := e.lookup? "target"
          if truthyOpt s ∧ truthyOpt t ∧ s = v then some t else none
        else none)
    else []
  | _, _ => []

/-- The nodes `n` with `n.type === 'start'`. -/
def flowStartNodes (ns : List Yaml) : List Yaml :=
  ns.filter (fun n => truthyObj n && decide (n.lookup? "type" = some (.str "start")))

/-- The ids of the start nodes, in node order. -/
def flowStartIds (ns : List Yaml) : List (Option Yaml) :=
  (flowStartNodes ns).map (fun n => n.lookup? "id")

/-- The `reachable` set: multi-source DFS from every start node's id. -/
def flowReachable (d : Yaml) : List (Option Yaml) :=
  match d.lookup? "nodes", d.lookup? "edges" with
  | some (.arr ns), some (.arr es) =>
    (flowStartIds ns).foldl (dfsVisit (flowAdj d) (ns.length + es.length + 1)) []
  | _, _ => []

/-- The `UNREACHABLE_NODE` error naming one node id. -/
def unreachableNodeError (idv : Option Yaml) : ValidationError :=
  createError .UNREACHABLE_NODE "nodes"
    (some ("Node is not reachable from any start node: " ++ jsToStringOpt idv))

/-- `validateFlowLayout`. -/
def validateFlowLayout (d : Yaml) : List ValidationError :=
  match d.lookup? "nodes", d.lookup? "edges" with
  | some (.arr ns), some (.arr es) =>
    if flowStartNodes ns = [] then []
    else
      let reachable := flowReachable d
      (ns.filterMap (fun node =>
        if ¬ truthyObj node then none
        else if node.lookup? "type" ≠ some (.str "start") ∧
                node.lookup? "id" ∉ reachable then
          some (unreachableNodeError (node.lookup? "id"))
        else none))
      ++ (ns.filterMap (fun node =>
          if ¬ truthyObj node then none
          else if node.lookup? "type" = some (.str "decision") then
            let outgoing := es.filter (fun e =>
              truthyObj e && decide (e.lookup? "source" = node.lookup? "id"))
            if outgoing.length < 2 then
              some (createError .MISSING_METADATA "nodes"
                (some ("Decision node should have at least 2 outgoing edges: " ++
                  jsToStringOpt (node.lookup? "id"))))
            else none
          else none))
  | _, _ => []

/-! ## Reference validator (webview/validators/referenceValidator.ts), ERD part -/

/-- Property access `modelsValue[t]` (object keys are unique; on the entry
list this is the first match). -/
def findModelValue (mv : Yaml) (t : String) : Option Yaml :=
  ((objEntries mv).find? (fun p => p.1 = t)).map Prod.snd

/-- The dotted locator of a field's `foreign_key` attribute. -/
def fkPathOf (modelName fieldName : String) : String :=
  s!"models.{modelName}.fields.{fieldName}.attributes.foreign_key"

/-- The `FK_TABLE_NOT_FOUND` error for one foreign key. -/
def fkTableError (modelName fieldName t : String) : ValidationError :=
  createError .FK_TABLE_NOT_FOUND (fkPathOf modelName fieldName ++ ".table")
    (some ("Foreign key references non-existent table: " ++ t))

/-- The `FK_COLUMN_NOT_FOUND` error for one foreign key. -/
def fkColumnError (modelName fieldName c : String) : ValidationError :=
  createError .FK_COLUMN_NOT_FOUND (fkPathOf modelName fieldName ++ ".column")
    (some ("Foreign key references non-existent column: " ++ c))

/-- The foreign-key reference checks of one field (the body of the field
loop of `validateERDReferences`). -/
def fieldFKRefErrors (mv : Yaml) (modelNames : List String)
    (modelName fieldName : String) (fv : Yaml) : List ValidationError :=
  let fkOpt := chain? (fv.lookup? "attributes") "foreign_key"
  if ¬ truthyOpt fkOpt then []
  else
    let fk := fkOpt.getD .null
    match fk.lookup? "table" with
    | some (.str t) =>
      if t = "" then []
      else if t ∉ modelNames then [fkTableError modelName fieldName t]
      else
        match fk.lookup? "column" with
        | some (.str c) =>
          if c = "" then []
          else
            match findModelValue mv t with
            | some target =>
              if jsTruthy target ∧ truthyObjOpt (target.lookup? "fields") then
                if truthyOpt (chain? (target.lookup? "fields") c) then []
                else [fkColumnError modelName fieldName c]
              else []
            | none => []
        | _ => []
    | _ => []

/-- `validateERDReferences`. -/
def validateERDReferences (d : Yaml) : List ValidationError :=
  match d.lookup? "models" with
  | some m =>
    if truthyObj m then
      let modelNames := objKeys m
      (objEntries m).flatMap (fun p =>
        if truthyObjOpt (p.2.lookup? "fields") then
          (objEntries ((p.2.lookup? "fields").getD .null)).flatMap (fun q =>
            fieldFKRefErrors m modelNames p.1 q.1 q.2)
        else [])
    else []
  | none => []

/-! ## Best-practices validator (webview/validators/bestPracticesValidator.ts), ERD part -/

/-- The `indexedFields` set of a model: every entry of every `columns` array
of every object-typed index. -/
def erdIndexedFields (mv : Yaml) : List Yaml :=
  match mv.lookup? "indexes" with
  | some (.arr idxs) =>
    idxs.flatMap (fun ix =>
      if truthyObj ix then
        match ix.lookup? "columns" with
        | some (.arr cols) => cols
        | _ => []
      else [])
  | _ => []

/-- The `FK_WITHOUT_INDEX` warning for one foreign-key field. -/
def fkWithoutIndexWarning (modelName fieldName : String) : ValidationWarning :=
  createWarning .FK_WITHOUT_INDEX ("models." ++ modelName ++ ".fields." ++ fieldName)
    (some ("Foreign key field lacks an index: " ++ modelName ++ "." ++ fieldName))

/-- The warnings of one ERD model (the body of the model loop of
`validateERDBestPractices`). -/
def erdModelBPWarnings (modelName : String) (mv : Yaml) : List ValidationWarning :=
  if ¬ truthyObj mv then []
  else if ¬ truthyObjOpt (mv.lookup? "fields") then []
  else
    let fieldsV := (mv.lookup? "fields").getD .null
    let hasPrimaryKey := (objValues fieldsV).any (fun f =>
      truthyObj f && truthyOpt (f.lookup? "attributes") &&
        decide (chain? (f.lookup? "attributes") "primary_key" = some (.bool true)))
    (if hasPrimaryKey then []
     else [createWarning .MISSING_PRIMARY_KEY ("models." ++ modelName)
            (some ("Model does not have a primary key: " ++ modelName))])
    ++ (match mv.lookup? "indexes" with
        | some (.arr _) =>
          let indexedFields := erdIndexedFields mv
          (objEntries fieldsV).filterMap (fun q =>
            if jsTruthy q.2 ∧ isObjType q.2 ∧ truthyOpt (q.2.lookup? "attributes") ∧
               truthyOpt (chain? (q.2.lookup? "attributes") "foreign_key") ∧
               Yaml.str q.1 ∉ indexedFields then
              some (fkWithoutIndexWarning modelName q.1)
            else none)
        | _ => [])

/-- `validateERDBestPractices`. -/
def validateERDBestPractices (d : Yaml) : List ValidationWarning :=
  match d.lookup? "models" with
  | some m =>
    if truthyObj m then (objEntries m).flatMap (fun p => erdModelBPWarnings p.1 p.2)
    else []
  | none => []

/-! ## Validation orchestrator (webview/validators/diagramValidator.ts) -/

/-- `DiagramValidator.detectDiagramType`: absent or falsy `diagram_type`
defaults to `'erd'`; the only accepted explicit value is `'erd'`; anything
else throws. -/
def detectDiagramType (parsed : Yaml) : Except String DiagramType :=
  match parsed.lookup? "diagram_type" with
  | none => .ok .erd
  | some t =>
    if ¬ jsTruthy t then .ok .erd
    else if t = .str "erd" then .ok .erd
    else .error ("Invalid diagram_type: " ++ jsToString t ++ ". Only \x27erd\x27 is supported.")

/-- `DiagramValidator.validateStructure`: the common checks followed by the
kind-specific ones. -/
def DiagramValidator.validateStructure (parsed : Yaml) (diagramType : DiagramType) :
    List ValidationError :=
  (match parsed.lookup? "diagram_type" with
   | none => []
   | some t =>
     if ¬ jsTruthy t then []
     else if t = .str "erd" then []
     else [createError .INVALID_DIAGRAM_TYPE "diagram_type" none])
  ++ (match parsed.lookup? "metadata" with
      | some md =>
        if jsTruthy md then
          if truthyOpt (md.lookup? "name") then []
          else [createError .MISSING_METADATA_NAME "metadata.name" none]
        else [createError .MISSING_METADATA "" none]
      | none => [createError .MISSING_METADATA "" none])
  ++ (if diagramType = .erd then validateERDStructure parsed else [])

/-- `DiagramValidator.validateReferences`. -/
def DiagramValidator.validateReferences (parsed : Yaml) (diagramType : DiagramType) :
    List ValidationError :=
  if diagramType = .erd then validateERDReferences parsed else []

/-- `DiagramValidator.validateLayout`. -/
def DiagramValidator.validateLayout (parsed : Yaml) (diagramType : DiagramType) :
    List ValidationError :=
  if diagramType = .erd then validateERDLayout parsed else []

/-- `DiagramValidator.validateBestPractices`. -/
def DiagramValidator.validateBestPractices (parsed : Yaml) (diagramType : DiagramType) :
    List ValidationWarning :=
  if diagramType = .erd then validateERDBestPractices parsed else []

/-- The one error produced by the orchestrator's `catch` handler. -/
def parseFailureError (msg : String) : ValidationError :=
  { code := .MISSING_METADATA
    message := "Failed to parse YAML: " ++ msg
    path := ""
    suggestion := "Check YAML syntax for errors" }

/-- `DiagramValidator.validate`.  The argument is the outcome of
`yaml.parse(yamlContent)`: `Except.error` is a YAML syntax exception.  The
body mirrors the `try` block; the two `throw` sites inside it (`yaml.parse`
and `detectDiagramType`) surface as the `catch` handler's single-error
result, so the function is total: it never propagates an exception. -/
def DiagramValidator.validate (parseResult : Except String Yaml) : ValidationResult :=
  match parseResult with
  | .error e =>
    { isValid := false, errors := [parseFailureError e], warnings := [], diagramType := .erd }
  | .ok parsed =>
    if ¬ (jsTruthy parsed ∧ isObjType parsed) then
      { isValid := false
        errors := [createError .MISSING_METADATA "" (some "YAML is empty or invalid")]
        warnings := []
        diagramType := .erd }
    else
      match detectDiagramType parsed with
      | .error msg =>
        { isValid := false, errors := [parseFailureError msg], warnings := [], diagramType := .erd }
      | .ok diagramType =>
        let structureErrors := DiagramValidator.validateStructure parsed diagramType
        if structureErrors ≠ [] then
          aggregateResults structureErrors [] diagramType
        else
          let referenceErrors := DiagramValidator.validateReferences parsed diagramType
          let layoutErrors := DiagramValidator.validateLayout parsed diagramType
          let warnings := DiagramValidator.validateBestPractices parsed diagramType
          aggregateResults (structureErrors ++ referenceErrors ++ layoutErrors) warnings diagramType

/-! ## Prisma schema model and relation linker (webview/parsers/prismaParser.ts) -/

/-- `PrismaField` (optional properties are `Option`s). -/
structure PrismaField where
  name : String
  type : String
  isId : Bool
  isUnique : Bool
  isRequired : Bool
  isList : Bool
  hasDefault : Bool
  isForeignKey : Bool
  relationToModel : Option String
  relationName : Option String
  referencesField : Option String
  isEnum : Bool
deriving DecidableEq

/-- `PrismaModel`. -/
structure PrismaModel where
  name : String
  fields : List PrismaField
  primaryKey : Option (List String)
  group : Option String
  color : Option String
deriving DecidableEq

/-- `PrismaEnum`. -/
structure PrismaEnum where
  name : String
  values : List String
  group : Option String
  color : Option String
deriving DecidableEq

/-- `PrismaSchema`. -/
structure PrismaSchema where
  models : List PrismaModel
  enums : List PrismaEnum
deriving DecidableEq

/-- One entry of the `relations` multimap of `buildRelations` (the `toField`
property of the source is declared but never assigned, so it is omitted). -/
structure RelEntry where
  fromModel : String
  fromField : String
  toModel : String
deriving DecidableEq

/-- `field.relationToModel || field.type` (an empty string is falsy). -/
def relTarget (f : PrismaField) : String :=
  match f.relationToModel with
  | some t => if t ≠ "" then t else f.type
  | none => f.type

/-- Insert an entry into the relation multimap, creating the key's bucket on
first use (`Map` iteration order is key-insertion order). -/
def relAdd (acc : List (String × List RelEntry)) (r : String) (e : RelEntry) :
    List (String × List RelEntry) :=
  if acc.any (fun p => p.1 = r) then
    acc.map (fun p => if p.1 = r then (p.1, p.2 ++ [e]) else p)
  else acc ++ [(r, [e])]

/-- The `relations` multimap: one pass over all models' fields, keyed by each
field's truthy `relationName`. -/
def relationsOf (s : PrismaSchema) : List (String × List RelEntry) :=
  s.models.foldl (fun acc m =>
    m.fields.foldl (fun acc f =>
      match f.relationName with
      | some r =>
        if r ≠ "" then
          relAdd acc r { fromModel := m.name, fromField := f.name, toModel := relTarget f }
        else acc
      | none => acc) acc) []

/-- Update the first list element satisfying the predicate (a `find` followed
by in-place mutation). -/
def updateFirstBy {β : Type} (p : β → Bool) (u : β → β) : List β → List β
  | [] => []
  | x :: xs => if p x then u x :: xs else x :: updateFirstBy p u xs

/-- Mutation `fieldObj.relationToModel = target` on the first field of the
given name. -/
def setFieldRelation (fName target : String) (m : PrismaModel) : PrismaModel :=
  { m with fields := (updateFirstBy (fun f => f.name = fName)
      (fun f => { f with relationToModel := some target }) m.fields) }

/-- The body of the pair-linking loop of `buildRelations` for a bucket of
exactly two entries: look both models up, look both fields up in the
pre-mutation state, then assign each found field's `relationToModel` to the
other side's owning model. -/
def linkPair (s : PrismaSchema) (e1 e2 : RelEntry) : PrismaSchema :=
  match s.models.find? (fun m => m.name = e1.fromModel),
        s.models.find? (fun m => m.name = e2.fromModel) with
  | some m1, some m2 =>
    let f1found := (m1.fields.find? (fun f => f.name = e1.fromField)).isSome
    let f2found := (m2.fields.find? (fun f => f.name = e2.fromField)).isSome
    let models1 :=
      if f1found then
        updateFirstBy (fun m => m.name = e1.fromModel)
          (setFieldRelation e1.fromField e2.fromModel) s.models
      else s.models
    let models2 :=
      if f2found then
        updateFirstBy (fun m => m.name = e2.fromModel)
          (setFieldRelation e2.fromField e1.fromModel) models1
      else models1
    { s with models := models2 }
  | _, _ => s

/-- `buildRelations`: group fields by shared relation name, then link the
two sides of every bucket holding exactly two entries. -/
def buildRelations (s : PrismaSchema) : PrismaSchema :=
  (relationsOf s).foldl (fun sch p =>
    match p.2 with
    | [e1, e2] => linkPair sch e1 e2
    | _ => sch) s

/-- Field lookup by owning model name and field name (both `find`-style
first matches). -/
def getField (s : PrismaSchema) (mName fName : String) : Option PrismaField :=
  (s.models.find? (fun m => m.name = mName)).bind
    (fun m => m.fields.find? (fun f => f.name = fName))

/-! ## Concrete example documents used by the theorems below -/

/-- An ERD field holding a foreign key into table `t`, column `id`. -/
def fkField (t : String) : Yaml :=
  .obj [("field_type", .str "Int"),
        ("attributes", .obj [("foreign_key", .obj [("table", .str t), ("column", .str "id")])])]

/-- A primary-key `Int` field. -/
def idField : Yaml :=
  .obj [("field_type", .str "Int"), ("attributes", .obj [("primary_key", .bool true)])]

/-- The models entry list of the cyclic ERD document: `A → B → C → A`. -/
def erdCycleKvs : List (String × Yaml) :=
  [("A", .obj [("fields", .obj [("id", idField), ("b_id", fkField "B")])]),
   ("B", .obj [("fields", .obj [("id", idField), ("c_id", fkField "C")])]),
   ("C", .obj [("fields", .obj [("id", idField), ("a_id", fkField "A")])])]

/-- An ERD document whose foreign keys form the cycle `A → B → C → A`. -/
def erdCycleDoc : Yaml :=
  .obj [("metadata", .obj [("name", .str "X")]),
        ("models", .obj erdCycleKvs)]

/-- An ERD document whose foreign keys form the acyclic chain `A → B → C`. -/
def erdAcyclicDoc : Yaml :=
  .obj [("metadata", .obj [("name", .str "X")]),
        ("models", .obj [
          ("A", .obj [("fields", .obj [("id", idField), ("b_id", fkField "B")])]),
          ("B", .obj [("fields", .obj [("id", idField), ("c_id", fkField "C")])]),
          ("C", .obj [("fields", .obj [("id", idField)])])])]

/-- A flow node with the given id and type. -/
def flowNode (i t : String) : Yaml :=
  .obj [("id", .str i), ("type", .str t), ("label", .str i),
        ("position", .obj [("x", .num 0), ("y", .num 0)])]

/-- A flow edge with the given id, source and target. -/
def flowEdge (i s t : String) : Yaml :=
  .obj [("id", .str i), ("source", .str s), ("target", .str t)]

/-- The flow document with nodes `{start, a, b, orphan}` and edges
`{start→a, a→b}`. -/
def flowReachDoc : Yaml :=
  .obj [("diagram_type", .str "flow"), ("metadata", .obj [("name", .str "F")]),
        ("nodes", .arr [flowNode "start" "start", flowNode "a" "process",
                        flowNode "b" "process", flowNode "orphan" "process"]),
        ("edges", .arr [flowEdge "e1" "start" "a", flowEdge "e2" "a" "b"])]

/-- A flow document with two start nodes and no other rule violations. -/
def twoStartDoc : Yaml :=
  .obj [("nodes", .arr [flowNode "s1" "start", flowNode "s2" "start"]),
        ("edges", .arr [])]

/-- A document with an explicit `diagram_type: sequence`. -/
def seqTypedDoc : Yaml :=
  .obj [("diagram_type", .str "sequence"), ("metadata", .obj [("name", .str "S")]),
        ("participants", .arr []), ("messages", .arr [])]

/-- A sequence message with the given `sequence_order`. -/
def seqMsg (n : Int) : Yaml := .obj [("id", .str "m"), ("sequence_order", .num n)]

/-- A sequence document with `sequence_order` values `[1, 2, 4]`. -/
def seq124Doc : Yaml := .obj [("messages", .arr [seqMsg 1, seqMsg 2, seqMsg 4])]

/-- A sequence document with `sequence_order` values `[1, 1, 2]`. -/
def seq112Doc : Yaml := .obj [("messages", .arr [seqMsg 1, seqMsg 1, seqMsg 2])]

/-- An ERD document whose model `M` is missing the required `fields` key. -/
def missingFieldsDoc : Yaml :=
  .obj [("metadata", .obj [("name", .str "X")]),
        ("models", .obj [("M", .obj [("color", .str "red")])])]

/-- A field that is both a primary key and a foreign key. -/
def pkFkFieldVal : Yaml :=
  .obj [("field_type", .str "Int"),
        ("attributes", .obj [("primary_key", .bool true),
          ("foreign_key", .obj [("table", .str "M"), ("column", .str "ref_id")])])]

/-- A model holding `pkFkFieldVal` and declaring no `indexes`. -/
def pkFkModelNoIdx : Yaml := .obj [("fields", .obj [("ref_id", pkFkFieldVal)])]

/-- A model holding `pkFkFieldVal` and declaring an empty `indexes` array. -/
def pkFkModelEmptyIdx : Yaml :=
  .obj [("fields", .obj [("ref_id", pkFkFieldVal)]), ("indexes", .arr [])]

/-- An ERD document whose only model has a field that is both primary key
and foreign key, and declares no `indexes`. -/
def pkFkNoIndexDoc : Yaml :=
  .obj [("metadata", .obj [("name", .str "X")]),
        ("models", .obj [("M", pkFkModelNoIdx)])]

/-- Like `pkFkNoIndexDoc` but with an empty `indexes` array declared. -/
def pkFkEmptyIndexDoc : Yaml :=
  .obj [("metadata", .obj [("name", .str "X")]),
        ("models", .obj [("M", pkFkModelEmptyIdx)])]

/-- An ERD document with a foreign key into a non-existent table. -/
def fkBadTableDoc : Yaml :=
  .obj [("models", .obj [
    ("A", .obj [("fields", .obj [("x", fkField "Nope")])])])]

/-- An ERD document with a foreign key into an existing table but a
non-existent column. -/
def fkBadColumnDoc : Yaml :=
  .obj [("models", .obj [
    ("A", .obj [("fields", .obj [("x", fkField "B")])]),
    ("B", .obj [("fields", .obj [("y", idField)])])])]

/-- A virtual back-reference field: relation name, no foreign key. -/
def relField (n ty rel : String) : PrismaField :=
  { name := n, type := ty, isId := false, isUnique := false, isRequired := false,
    isList := true, hasDefault := false, isForeignKey := false,
    relationToModel := some ty, relationName := some rel, referencesField := none,
    isEnum := false }

/-- Two models whose fields share the relation name `"Posts"` with no
foreign-key attributes on either side. -/
def postsSchema : PrismaSchema :=
  { models := [
      { name := "User", fields := [relField "posts" "Post" "Posts"],
        primaryKey := none, group := none, color := none },
      { name := "Post", fields := [relField "author" "User" "Posts"],
        primaryKey := none, group := none, color := none }],
    enums := [] }

/-! ## Proof-helper definitions for the relation-linking analysis -/

/-- The identifying (owning model, field name) pair of a relation entry. -/
def entryPair (e : RelEntry) : String × String := (e.fromModel, e.fromField)

/-- All identifying pairs stored in a relation multimap, bucket by bucket. -/
def relPairs (bs : List (String × List RelEntry)) : List (String × String) :=
  bs.flatMap (fun p => p.2.map entryPair)

/-- Whether a field is keyed into the relation multimap (truthy
`relationName`). -/
def relKeyed (f : PrismaField) : Bool :=
  match f.relationName with
  | some r => decide (r ≠ "")
  | none => false

/-- The identifying pairs a single model contributes to the multimap. -/
def fieldPairs (m : PrismaModel) : List (String × String) :=
  (m.fields.filter relKeyed).map (fun f => (m.name, f.name))

/-- The identifying pairs the whole schema contributes. -/
def schemaPairs (s : PrismaSchema) : List (String × String) :=
  s.models.flatMap fieldPairs

/-- The per-field step of the multimap-building pass of `buildRelations`. -/
def relFieldStep (m : PrismaModel) (acc : List (String × List RelEntry))
    (f : PrismaField) : List (String × List RelEntry) :=
  match f.relationName with
  | some r =>
    if r ≠ "" then
      relAdd acc r { fromModel := m.name, fromField := f.name, toModel := relTarget f }
    else acc
  | none => acc

/-- The per-bucket step of the linking pass of `buildRelations`. -/
def relLinkStep (sch : PrismaSchema) (p : String × List RelEntry) : PrismaSchema :=
  match p.2 with
  | [e1, e2] => linkPair sch e1 e2
  | _ => sch

/-- Field lookup over a bare model list (`getField` without the schema
wrapper). -/
def mfind (l : List PrismaModel) (mName fName : String) : Option PrismaField :=
  (l.find? (fun m => m.name = mName)).bind
    (fun m => m.fields.find? (fun f => f.name = fName))

/-! ## General lemmas about the embedding -/

/-- A successful property lookup forces the value to be an object. -/
theorem lookup_some_is_obj {v : Yaml} {k : String} {x : Yaml}
    (h : v.lookup? k = some x) : ∃ kvs, v = .obj kvs := by
  cases v <;> simp [Yaml.lookup?] at h
  exact ⟨_, rfl⟩

/-- Objects pass the `x && typeof x === 'object'` guard. -/
theorem truthyObj_obj (kvs : List (String × Yaml)) : truthyObj (.obj kvs) = true := rfl

/-- Present objects pass the optional-value object guard. -/
theorem truthyObjOpt_some_obj (kvs : List (String × Yaml)) :
    truthyObjOpt (some (.obj kvs)) = true := rfl

/-- The entries of an object value. -/
theorem objEntries_obj (kvs : List (String × Yaml)) : objEntries (.obj kvs) = kvs := rfl

/-- The orchestrator's result on any explicit truthy non-`erd`
`diagram_type`: the `detectDiagramType` exception is caught and converted
into the single-error parse-failure result reported as `erd`. -/
theorem validate_ok_nonErd (v t : Yaml) (h1 : jsTruthy v) (h2 : isObjType v)
    (ht : v.lookup? "diagram_type" = some t) (htr : jsTruthy t) (hne : t ≠ .str "erd") :
    DiagramValidator.validate (.ok v) =
      { isValid := false
        errors := [parseFailureError
          ("Invalid diagram_type: " ++ jsToString t ++ ". Only \x27erd\x27 is supported.")]
        warnings := []
        diagramType := .erd } := by
  have hdet : detectDiagramType v =
      .error ("Invalid diagram_type: " ++ jsToString t ++ ". Only \x27erd\x27 is supported.") := by
    unfold detectDiagramType
    rw [ht]
    simp [htr, hne]
  unfold DiagramValidator.validate
  simp [hdet, h1, h2]

/-! ## Claim theorems -/

/-- C1 (counterexample): for the flow document with explicit
`diagram_type: flow`, `validate` does not report `diagramKind = flow` — it
reports `erd` and an invalid result, refuting the claim that flow and
sequence kinds are detected and validated. -/
theorem validate_flow_doc_not_detected_as_flow :
    (DiagramValidator.validate (.ok flowReachDoc)).diagramType = .erd ∧
    (DiagramValidator.validate (.ok flowReachDoc)).diagramType ≠ .flow ∧
    (DiagramValidator.validate (.ok flowReachDoc)).isValid = false := by
  decide

/-- C1 (amended): only `erd` is accepted.  For every document with an
explicit truthy `diagram_type` other than the string `erd` — in particular
`flow` and `sequence` — `detectDiagramType` throws, `validate` catches the
exception, and the result is invalid with a single error and is reported
with `diagramType = erd`; no kind-specific phases run. -/
theorem validate_rejects_explicit_nonErd_diagramType :
    ∀ (v t : Yaml), jsTruthy v → isObjType v →
      v.lookup? "diagram_type" = some t → jsTruthy t → t ≠ .str "erd" →
      DiagramValidator.validate (.ok v) =
        { isValid := false
          errors := [parseFailureError
            ("Invalid diagram_type: " ++ jsToString t ++ ". Only \x27erd\x27 is supported.")]
          warnings := []
          diagramType := .erd } :=
  fun v t h1 h2 ht htr hne => validate_ok_nonErd v t h1 h2 ht htr hne

/-- C1 (witness): the amended theorem applied to a `flow`-typed and a
`sequence`-typed document. -/
theorem validate_rejects_explicit_nonErd_diagramType_witness :
    DiagramValidator.validate (.ok flowReachDoc) =
      { isValid := false
        errors := [parseFailureError
          ("Invalid diagram_type: " ++ jsToString (.str "flow") ++ ". Only \x27erd\x27 is supported.")]
        warnings := []
        diagramType := .erd } ∧
    DiagramValidator.validate (.ok seqTypedDoc) =
      { isValid := false
        errors := [parseFailureError
          ("Invalid diagram_type: " ++ jsToString (.str "sequence") ++ ". Only \x27erd\x27 is supported.")]
        warnings := []
        diagramType := .erd } :=
  ⟨validate_rejects_explicit_nonErd_diagramType flowReachDoc (.str "flow")
     (by decide) (by decide) (by decide) (by decide) (by decide),
   validate_rejects_explicit_nonErd_diagramType seqTypedDoc (.str "sequence")
     (by decide) (by decide) (by decide) (by decide) (by decide)⟩

/-- C10: `validate` is a total function on parse outcomes — the embedding
returns a `ValidationResult` for every input, never propagating an
exception — and both exceptional paths (a YAML syntax failure and the
exception thrown for a truthy non-`erd` `diagram_type`) are converted into
a result with `isValid = false`, exactly one error, and `diagramType`
reported as `erd`. -/
theorem validate_catches_all_exceptions :
    (∀ e : String, DiagramValidator.validate (.error e) =
       { isValid := false, errors := [parseFailureError e], warnings := [],
         diagramType := .erd }) ∧
    (∀ (v t : Yaml), jsTruthy v → isObjType v →
       v.lookup? "diagram_type" = some t → jsTruthy t → t ≠ .str "erd" →
       (DiagramValidator.validate (.ok v)).isValid = false ∧
       (DiagramValidator.validate (.ok v)).errors.length = 1 ∧
       (DiagramValidator.validate (.ok v)).diagramType = .erd) := by
  constructor
  · intro e; rfl
  · intro v t h1 h2 ht htr hne
    rw [validate_ok_nonErd v t h1 h2 ht htr hne]
    exact ⟨rfl, rfl, rfl⟩

/-- C10 (witness): both branches at concrete inputs. -/
theorem validate_catches_all_exceptions_witness :
    DiagramValidator.validate (.error "unexpected end of stream") =
      { isValid := false, errors := [parseFailureError "unexpected end of stream"],
        warnings := [], diagramType := .erd } ∧
    ((DiagramValidator.validate (.ok seqTypedDoc)).isValid = false ∧
     (DiagramValidator.validate (.ok seqTypedDoc)).errors.length = 1 ∧
     (DiagramValidator.validate (.ok seqTypedDoc)).diagramType = .erd) :=
  ⟨validate_catches_all_exceptions.1 "unexpected end of stream",
   validate_catches_all_exceptions.2 seqTypedDoc (.str "sequence")
     (by decide) (by decide) (by decide) (by decide) (by decide)⟩

/-- C2: whenever the structure phase returns at least one error, `validate`
returns exactly those errors with no warnings (so the reference, layout and
best-practice phases contribute nothing); concretely, an ERD document whose
model `M` lacks the required `fields` key yields only that structural error
and zero reference/layout (FK or cycle) errors. -/
theorem validate_short_circuits_on_structure_errors :
    (∀ (v : Yaml) (dt : DiagramType), jsTruthy v → isObjType v →
       detectDiagramType v = .ok dt →
       DiagramValidator.validateStructure v dt ≠ [] →
       DiagramValidator.validate (.ok v) =
         { isValid := false
           errors := DiagramValidator.validateStructure v dt
           warnings := []
           diagramType := dt }) ∧
    DiagramValidator.validate (.ok missingFieldsDoc) =
      { isValid := false
        errors := [createError .MISSING_METADATA "models.M.fields"
          (some "Model must have a \"fields\" object")]
        warnings := []
        diagramType := .erd } ∧
    ((DiagramValidator.validate (.ok missingFieldsDoc)).errors.filter (fun e =>
        decide (e.code = .FK_TABLE_NOT_FOUND) || decide (e.code = .FK_COLUMN_NOT_FOUND) ||
        decide (e.code = .CIRCULAR_DEPENDENCY))) = [] := by
  refine ⟨?_, by decide, by decide⟩
  intro v dt h1 h2 hdet hne
  unfold DiagramValidator.validate
  simp only [hdet, h1, h2]
  rcases h : DiagramValidator.validateStructure v dt with _ | ⟨a, l⟩
  · exact absurd h hne
  · simp [aggregateResults, h]

/-- C2 (witness): the short-circuit theorem applied to the document with a
model missing `fields`. -/
theorem validate_short_circuits_on_structure_errors_witness :
    DiagramValidator.validate (.ok missingFieldsDoc) =
      { isValid := false
        errors := DiagramValidator.validateStructure missingFieldsDoc .erd
        warnings := []
        diagramType := .erd } :=
  validate_short_circuits_on_structure_errors.1 missingFieldsDoc .erd
    (by decide) (by decide) (by decide) (by decide)

/-- The start-node counter of the node loop counts exactly the object nodes
whose `type` is the string `start`. -/
theorem flowNodesLoop_startCount (ns : List Yaml) :
    ∀ (i : Nat) (seen : List String),
      (flowNodesLoop i seen ns).2.2 = (flowStartNodes ns).length := by
  induction ns with
  | nil => intro i seen; simp [flowNodesLoop, flowStartNodes]
  | cons n rest ih =>
    intro i seen
    by_cases h : truthyObj n
    · rcases hty : n.lookup? "type" with _ | v
      · simp [flowNodesLoop, flowStartNodes, List.filter_cons, h, hty, ih]
      · cases v with
        | str t =>
          by_cases hvt : t ∈ flowValidNodeTypes
          · by_cases hts : t = "start"
            · subst hts
              simp [flowNodesLoop, flowStartNodes, List.filter_cons, h, hty, hvt, ih,
                Nat.add_comm]
            · have hne : Yaml.str t ≠ Yaml.str "start" := by
                intro hh; injection hh; contradiction
              simp [flowNodesLoop, flowStartNodes, List.filter_cons, h, hty, hvt, hts, hne, ih]
          · have hts : t ≠ "start" := by intro hh; subst hh; simp [flowValidNodeTypes] at hvt
            have hne : Yaml.str t ≠ Yaml.str "start" := by
              intro hh; injection hh; contradiction
            simp [flowNodesLoop, flowStartNodes, List.filter_cons, h, hty, hvt, hne, ih]
        | null => simp [flowNodesLoop, flowStartNodes, List.filter_cons, h, hty, ih]
        | bool b => simp [flowNodesLoop, flowStartNodes, List.filter_cons, h, hty, ih]
        | num m => simp [flowNodesLoop, flowStartNodes, List.filter_cons, h, hty, ih]
        | arr xs => simp [flowNodesLoop, flowStartNodes, List.filter_cons, h, hty, ih]
        | obj kvs => simp [flowNodesLoop, flowStartNodes, List.filter_cons, h, hty, ih]
    · simp [flowNodesLoop, flowStartNodes, List.filter_cons, h, ih]

/-- C8 (counterexample): a flow document with two start nodes and no other
violations is reported through the error list — `MULTIPLE_START_NODES` is
an error, not a warning, and the aggregated result has `isValid = false`,
refuting the claim that the result stays valid. -/
theorem multipleStartNodes_not_a_warning :
    validateFlowStructure twoStartDoc = [multipleStartNodesError] ∧
    (aggregateResults (validateFlowStructure twoStartDoc) [] .flow).isValid = false := by
  decide

/-- C8 (amended): for a flow document with more than one node of type
`start`, `validateFlowStructure` emits the `MULTIPLE_START_NODES` condition
as an error, so the aggregated result has `isValid = false`; zero start
nodes is also an error. -/
theorem multipleStartNodes_is_blocking_error :
    ∀ (d : Yaml) (ns : List Yaml),
      d.lookup? "nodes" = some (.arr ns) →
      1 < (flowStartNodes ns).length →
      multipleStartNodesError ∈ validateFlowStructure d ∧
      (aggregateResults (validateFlowStructure d) [] .flow).isValid = false := by
  intro d ns hn hcnt
  have hmem : multipleStartNodesError ∈ validateFlowStructure d := by
    unfold validateFlowStructure
    rw [hn]
    apply List.mem_append_left
    apply List.mem_append_right
    rw [flowNodesLoop_startCount ns 0 []]
    have h0 : (flowStartNodes ns).length ≠ 0 := by omega
    simp [h0, hcnt]
  refine ⟨hmem, ?_⟩
  have hne := List.ne_nil_of_mem hmem
  simp [aggregateResults, List.isEmpty_iff, hne]

/-- C8 (witness): the amended theorem applied to the two-start document. -/
theorem multipleStartNodes_is_blocking_error_witness :
    multipleStartNodesError ∈ validateFlowStructure twoStartDoc ∧
    (aggregateResults (validateFlowStructure twoStartDoc) [] .flow).isValid = false :=
  multipleStartNodes_is_blocking_error twoStartDoc
    [flowNode "s1" "start", flowNode "s2" "start"] (by decide) (by decide)

/-- C9 (counterexample): the model of `pkFkNoIndexDoc` declares no
`indexes`, its `ref_id` field carries a `foreign_key` and appears in no
declared index's column list, yet no `FK_WITHOUT_INDEX` warning is
produced — the best-practices validator skips the check entirely for
models without an `indexes` array. -/
theorem fkWithoutIndex_missing_for_indexless_model :
    validateERDBestPractices pkFkNoIndexDoc = [] ∧
    truthyOpt (chain? (pkFkFieldVal.lookup? "attributes") "foreign_key") = true ∧
    erdIndexedFields pkFkModelNoIdx = [] := by
  decide

/-- C9 (amended): the `FK_WITHOUT_INDEX` warning is emitted for every
foreign-key field whose name is absent from every declared index's column
list **provided the model declares an `indexes` array** (possibly empty);
a model without an `indexes` key produces no `FK_WITHOUT_INDEX` warnings
at all. -/
theorem fkWithoutIndex_requires_indexes_array :
    ∀ (d : Yaml) (kvs : List (String × Yaml)) (mn : String) (mv : Yaml)
      (fkvs : List (String × Yaml)) (fn : String) (fv : Yaml),
      d.lookup? "models" = some (.obj kvs) →
      (mn, mv) ∈ kvs →
      mv.lookup? "fields" = some (.obj fkvs) →
      (fn, fv) ∈ fkvs →
      jsTruthy fv → isObjType fv →
      truthyOpt (fv.lookup? "attributes") →
      truthyOpt (chain? (fv.lookup? "attributes") "foreign_key") →
      ((∀ idxs : List Yaml, mv.lookup? "indexes" = some (.arr idxs) →
          Yaml.str fn ∉ erdIndexedFields mv →
          fkWithoutIndexWarning mn fn ∈ validateERDBestPractices d) ∧
       (mv.lookup? "indexes" = none →
          ∀ w ∈ erdModelBPWarnings mn mv, w.code ≠ .FK_WITHOUT_INDEX)) := by
  intro d kvs mn mv fkvs fn fv hd hm hf hfv htr hobj hattr hfk
  obtain ⟨mkvs, rfl⟩ := lookup_some_is_obj hf
  constructor
  · intro idxs hidx hnotin
    unfold validateERDBestPractices
    rw [hd]
    simp only [truthyObj_obj, Bool.not_true, not_true_eq_false, if_false, ite_false,
      if_true, ite_true, objEntries_obj]
    rw [List.mem_flatMap]
    refine ⟨(mn, .obj mkvs), hm, ?_⟩
    unfold erdModelBPWarnings
    rw [hf, hidx]
    simp only [truthyObj_obj, truthyObjOpt_some_obj, Bool.not_true, not_true_eq_false,
      if_false, ite_false, if_true, ite_true, Option.getD_some, objEntries_obj]
    apply List.mem_append_right
    rw [List.mem_filterMap]
    refine ⟨(fn, fv), hfv, ?_⟩
    simp [htr, hobj, hattr, hfk, hnotin]
  · intro hnone w hw
    unfold erdModelBPWarnings at hw
    rw [hf, hnone] at hw
    simp only [truthyObj_obj, truthyObjOpt_some_obj, Bool.not_true, not_true_eq_false,
      if_false, ite_false, if_true, ite_true, Option.getD_some, objEntries_obj,
      List.append_nil] at hw
    split at hw
    · simp at hw
    · simp only [List.mem_singleton] at hw
      subst hw
      simp [createWarning]

/-- C9 (witness): the amended theorem applied to the model that declares an
empty `indexes` array. -/
theorem fkWithoutIndex_requires_indexes_array_witness :
    fkWithoutIndexWarning "M" "ref_id" ∈ validateERDBestPractices pkFkEmptyIndexDoc :=
  (fkWithoutIndex_requires_indexes_array pkFkEmptyIndexDoc
      [("M", pkFkModelEmptyIdx)] "M" pkFkModelEmptyIdx
      [("ref_id", pkFkFieldVal)] "ref_id" pkFkFieldVal
      (by decide) (by decide) (by decide) (by decide) (by decide) (by decide)
      (by decide) (by decide)).1 [] (by decide) (by decide)

/-- A located model name is one of the keys. -/
theorem findModelValue_mem {kvs : List (String × Yaml)} {t : String} {tv : Yaml}
    (h : findModelValue (.obj kvs) t = some tv) : t ∈ kvs.map Prod.fst := by
  unfold findModelValue at h
  rcases hfind : (objEntries (.obj kvs)).find? (fun p => p.1 = t) with _ | p
  · rw [hfind] at h; simp at h
  · have hp := List.find?_some hfind
    have hmem := List.mem_of_find?_eq_some hfind
    simp at hp
    exact hp ▸ List.mem_map_of_mem Prod.fst hmem

/-- A key absent from an object's entries looks up to `undefined`. -/
theorem lookup_none_of_not_key {kvs : List (String × Yaml)} {c : String}
    (h : c ∉ kvs.map Prod.fst) : (Yaml.obj kvs).lookup? c = none := by
  cases hfind : kvs.find? (fun p => p.1 = c) with
  | none => simp [Yaml.lookup?, hfind]
  | some p =>
    exfalso
    have hp := List.find?_some hfind
    have hmem := List.mem_of_find?_eq_some hfind
    simp at hp
    exact h (hp ▸ List.mem_map_of_mem Prod.fst hmem)

/-- Errors of one field's foreign-key check sit inside the reference
validator's output. -/
theorem mem_validateERDReferences_of {d : Yaml} {kvs : List (String × Yaml)}
    {mn : String} {mval : Yaml} {fkvs : List (String × Yaml)} {fn : String}
    {fv : Yaml} {e : ValidationError}
    (hd : d.lookup? "models" = some (.obj kvs))
    (hm : (mn, mval) ∈ kvs)
    (hf : mval.lookup? "fields" = some (.obj fkvs))
    (hfv : (fn, fv) ∈ fkvs)
    (he : e ∈ fieldFKRefErrors (.obj kvs) (objKeys (.obj kvs)) mn fn fv) :
    e ∈ validateERDReferences d := by
  unfold validateERDReferences
  rw [hd]
  simp only [truthyObj_obj, Bool.not_true, not_true_eq_false, if_false, ite_false,
    if_true, ite_true, objEntries_obj]
  rw [List.mem_flatMap]
  refine ⟨(mn, mval), hm, ?_⟩
  rw [hf]
  simp only [truthyObjOpt_some_obj, if_true, ite_true, Option.getD_some, objEntries_obj]
  rw [List.mem_flatMap]
  exact ⟨(fn, fv), hfv, he⟩

/-- C7: for every ERD field carrying a foreign key with non-empty string
`table` and `column`, a `table` naming no model yields exactly the
`FK_TABLE_NOT_FOUND` error for that foreign key (in particular no column
error for it), and an existing `table` whose model lacks the `column`
yields exactly the `FK_COLUMN_NOT_FOUND` error; each error appears in
`validateERDReferences`' output. -/
theorem validateERDReferences_fk_resolution :
    ∀ (d : Yaml) (kvs : List (String × Yaml)) (mn : String) (mval : Yaml)
      (fkvs : List (String × Yaml)) (fn : String) (fv fk : Yaml) (t c : String),
      d.lookup? "models" = some (.obj kvs) →
      (mn, mval) ∈ kvs →
      mval.lookup? "fields" = some (.obj fkvs) →
      (fn, fv) ∈ fkvs →
      chain? (fv.lookup? "attributes") "foreign_key" = some fk →
      jsTruthy fk →
      fk.lookup? "table" = some (.str t) → t ≠ "" →
      fk.lookup? "column" = some (.str c) → c ≠ "" →
      ((t ∉ kvs.map Prod.fst →
         fieldFKRefErrors (.obj kvs) (objKeys (.obj kvs)) mn fn fv = [fkTableError mn fn t] ∧
         fkTableError mn fn t ∈ validateERDReferences d) ∧
       (∀ (tv : Yaml) (tfkvs : List (String × Yaml)),
         findModelValue (.obj kvs) t = some tv →
         tv.lookup? "fields" = some (.obj tfkvs) →
         c ∉ tfkvs.map Prod.fst →
         fieldFKRefErrors (.obj kvs) (objKeys (.obj kvs)) mn fn fv = [fkColumnError mn fn c] ∧
         fkColumnError mn fn c ∈ validateERDReferences d)) := by
  intro d kvs mn mval fkvs fn fv fk t c hd hm hf hfv hfk hfktr ht htne hc hcne
  constructor
  · intro hnot
    have heq : fieldFKRefErrors (.obj kvs) (objKeys (.obj kvs)) mn fn fv =
        [fkTableError mn fn t] := by
      unfold fieldFKRefErrors
      rw [hfk]
      simp only [truthyOpt, hfktr, Bool.not_true, not_true_eq_false, if_false, ite_false,
        Option.getD_some]
      rw [ht]
      have : t ∉ objKeys (.obj kvs) := hnot
      simp [htne, this]
    exact ⟨heq, mem_validateERDReferences_of hd hm hf hfv (by rw [heq]; exact List.mem_singleton_self _)⟩
  · intro tv tfkvs htv htf hcnot
    obtain ⟨tkvs2, rfl⟩ := lookup_some_is_obj htf
    have htmem : t ∈ objKeys (.obj kvs) := findModelValue_mem htv
    have hcl : (Yaml.obj tfkvs).lookup? c = none := lookup_none_of_not_key hcnot
    have heq : fieldFKRefErrors (.obj kvs) (objKeys (.obj kvs)) mn fn fv =
        [fkColumnError mn fn c] := by
      unfold fieldFKRefErrors
      rw [hfk]
      simp only [truthyOpt, hfktr, Bool.not_true, not_true_eq_false, if_false, ite_false,
        Option.getD_some]
      rw [ht]
      simp only [htne, htmem, if_false, ite_false, if_true, ite_true, not_true_eq_false]
      rw [hc]
      simp only [hcne, if_false, ite_false]
      rw [htv]
      simp [chain?, htf, hcl, truthyOpt]
      exact ⟨rfl, rfl⟩
    exact ⟨heq, mem_validateERDReferences_of hd hm hf hfv (by rw [heq]; exact List.mem_singleton_self _)⟩

/-- C7 (witness): the resolution theorem applied to a foreign key naming a
missing table and to one naming a real table with a missing column. -/
theorem validateERDReferences_fk_resolution_witness :
    fkTableError "A" "x" "Nope" ∈ validateERDReferences fkBadTableDoc ∧
    fkColumnError "A" "x" "id" ∈ validateERDReferences fkBadColumnDoc :=
  ⟨((validateERDReferences_fk_resolution fkBadTableDoc
      [("A", .obj [("fields", .obj [("x", fkField "Nope")])])] "A"
      (.obj [("fields", .obj [("x", fkField "Nope")])])
      [("x", fkField "Nope")] "x" (fkField "Nope")
      (.obj [("table", .str "Nope"), ("column", .str "id")]) "Nope" "id"
      (by decide) (by decide) (by decide) (by decide) (by decide) (by decide)
      (by decide) (by decide) (by decide) (by decide)).1 (by decide)).2,
   ((validateERDReferences_fk_resolution fkBadColumnDoc
      [("A", .obj [("fields", .obj [("x", fkField "B")])]),
       ("B", .obj [("fields", .obj [("y", idField)])])] "A"
      (.obj [("fields", .obj [("x", fkField "B")])])
      [("x", fkField "B")] "x" (fkField "B")
      (.obj [("table", .str "B"), ("column", .str "id")]) "B" "id"
      (by decide) (by decide) (by decide) (by decide) (by decide) (by decide)
      (by decide) (by decide) (by decide) (by decide)).2
      (.obj [("fields", .obj [("y", idField)])]) [("y", idField)]
      (by decide) (by decide) (by decide)).2⟩

/-- The walk stops at the first mismatching position with exactly one
error naming the expected and actual values. -/
theorem seqWalk_first_mismatch :
    ∀ (l : List Yaml) (s i : Nat) (mi : Yaml),
      l.get? i = some mi →
      (∀ j, j < i → ((l.get? j).bind (fun m => m.lookup? "sequence_order")) =
         some (.num ((s : Int) + (j : Int) + 1))) →
      mi.lookup? "sequence_order" ≠ some (.num ((s : Int) + (i : Int) + 1)) →
      seqWalk s l = [seqMismatchError (s + i) mi] := by
  intro l
  induction l with
  | nil => intro s i mi hget; simp at hget
  | cons m rest ih =>
    intro s i mi hget hpre hmis
    cases i with
    | zero =>
      simp only [List.get?_cons_zero, Option.some.injEq] at hget
      subst hget
      simp only [Nat.cast_zero, add_zero] at hmis
      unfold seqWalk
      rw [if_neg hmis]
      simp
    | succ j =>
      have h0 := hpre 0 (Nat.succ_pos j)
      simp only [List.get?_cons_zero, Option.some_bind] at h0
      have h0' : m.lookup? "sequence_order" = some (.num ((s : Int) + 1)) := by
        simpa using h0
      unfold seqWalk
      rw [if_pos h0']
      have hrec := ih (s + 1) j mi
        (by simpa using hget)
        (by
          intro j' hj'
          have := hpre (j' + 1) (Nat.succ_lt_succ hj')
          simp only [List.get?_cons_succ] at this
          rw [this]
          congr 2
          push_cast
          ring)
        (by
          intro hcon
          apply hmis
          rw [hcon]
          congr 2
          push_cast
          ring)
      rw [hrec, show s + 1 + j = s + (j + 1) from by omega]

/-- If the sequence-order values are not pairwise distinct, the duplicate
check fires. -/
theorem seqDupErrors_of_not_nodup {ms : List Yaml}
    (h : ¬ ((seqObjMessages ms).map (fun m => m.lookup? "sequence_order")).Nodup) :
    seqDupErrors ms = [seqDupError] := by
  unfold seqDupErrors
  set ov := (seqObjMessages ms).map (fun m => m.lookup? "sequence_order") with hov
  have hne : ov.length ≠ ov.dedup.length := by
    intro heq
    have hsub : List.Sublist ov.dedup ov := List.dedup_sublist ov
    have : ov.dedup = ov := hsub.eq_of_length heq.symm
    exact h (this ▸ ov.nodup_dedup)
  simp [hne]

/-- C6: `validateSequenceLayout` sorts messages by `sequence_order` and
reports exactly one `INVALID_SEQUENCE_ORDER` error at the first 0-indexed
position `i` whose sorted value is not `i + 1`, naming `i + 1` and the
actual value, then stops (so `[1,2,4]` yields exactly one error citing
expected `3`, found `4` at position `2`); duplicate values additionally
produce the separate duplicate-order error regardless of the walk's
outcome (so `[1,1,2]` reports it). -/
theorem validateSequenceLayout_order_and_duplicates :
    (∀ (d : Yaml) (ms : List Yaml) (i : Nat) (mi : Yaml),
       d.lookup? "messages" = some (.arr ms) →
       (seqSorted ms).get? i = some mi →
       (∀ j, j < i → (((seqSorted ms).get? j).bind (fun m => m.lookup? "sequence_order")) =
          some (.num ((j : Int) + 1))) →
       mi.lookup? "sequence_order" ≠ some (.num ((i : Int) + 1)) →
       validateSequenceLayout d = [seqMismatchError i mi] ++ seqDupErrors ms) ∧
    (∀ (d : Yaml) (ms : List Yaml),
       d.lookup? "messages" = some (.arr ms) →
       ¬ ((seqObjMessages ms).map (fun m => m.lookup? "sequence_order")).Nodup →
       seqDupError ∈ validateSequenceLayout d) ∧
    validateSequenceLayout seq124Doc = [seqMismatchError 2 (seqMsg 4)] ∧
    validateSequenceLayout seq112Doc = [seqMismatchError 1 (seqMsg 1), seqDupError] := by
  refine ⟨?_, ?_, by decide, by decide⟩
  · intro d ms i mi hm hget hpre hmis
    unfold validateSequenceLayout
    rw [hm]
    have hw := seqWalk_first_mismatch (seqSorted ms) 0 i mi hget
      (by intro j hj; rw [hpre j hj]; congr 2; push_cast; ring)
      (by intro hcon; apply hmis; rw [hcon]; congr 2; push_cast; ring)
    show seqWalk 0 (seqSorted ms) ++ seqDupErrors ms = [seqMismatchError i mi] ++ seqDupErrors ms
    rw [hw, Nat.zero_add]
  · intro d ms hm hdup
    unfold validateSequenceLayout
    rw [hm]
    show seqDupError ∈ seqWalk 0 (seqSorted ms) ++ seqDupErrors ms
    rw [seqDupErrors_of_not_nodup hdup]
    exact List.mem_append_right _ (List.mem_singleton_self _)

/-- C6 (witness): the theorem's first two parts applied to the `[1,2,4]`
and `[1,1,2]` documents. -/
theorem validateSequenceLayout_order_and_duplicates_witness :
    validateSequenceLayout seq124Doc =
      [seqMismatchError 2 (seqMsg 4)] ++ seqDupErrors [seqMsg 1, seqMsg 2, seqMsg 4] ∧
    seqDupError ∈ validateSequenceLayout seq112Doc :=
  ⟨validateSequenceLayout_order_and_duplicates.1 seq124Doc
      [seqMsg 1, seqMsg 2, seqMsg 4] 2 (seqMsg 4)
      (by decide) (by decide) (by decide) (by decide),
   validateSequenceLayout_order_and_duplicates.2.1 seq112Doc
      [seqMsg 1, seqMsg 1, seqMsg 2] (by decide) (by decide)⟩

/-! ## Verified depth-first traversal

`dfsVisit` computes, given enough fuel, exactly the nodes reachable from
the start set along the adjacency relation.  The lemmas below establish the
standard soundness (visited implies reachable) and closure (every visited
node's neighbours are visited) properties; the fuel bound is discharged by
a counting argument over a finite universe closed under adjacency. -/

section DFSLemmas

variable {α : Type} [DecidableEq α] (adj : α → List α)

/-- One visit only extends the visited set. -/
theorem dfsVisit_extend : ∀ (fuel : Nat) (vis : List α) (n : α),
    ∃ l, dfsVisit adj fuel vis n = l ++ vis := by
  intro fuel
  induction fuel with
  | zero => intro vis n; exact ⟨[], rfl⟩
  | succ fuel ih =>
    have hfold : ∀ (ds : List α) (vis : List α),
        ∃ l, ds.foldl (dfsVisit adj fuel) vis = l ++ vis := by
      intro ds
      induction ds with
      | nil => intro vis; exact ⟨[], rfl⟩
      | cons d ds ihd =>
        intro vis
        obtain ⟨l1, h1⟩ := ih vis d
        obtain ⟨l2, h2⟩ := ihd (dfsVisit adj fuel vis d)
        exact ⟨l2 ++ l1, by
      rw [h1] at h2
      rw [List.foldl_cons, h1, h2, List.append_assoc]⟩
    intro vis n
    by_cases h : n ∈ vis
    · exact ⟨[], by simp [dfsVisit, h]⟩
    · obtain ⟨l, hl⟩ := hfold (adj n) (n :: vis)
      exact ⟨l ++ [n], by simp [dfsVisit, h, hl]⟩

/-- The visited set is monotone. -/
theorem dfsVisit_mono (fuel : Nat) (vis : List α) (n : α) {x : α} (hx : x ∈ vis) :
    x ∈ dfsVisit adj fuel vis n := by
  obtain ⟨l, hl⟩ := dfsVisit_extend adj fuel vis n
  rw [hl]
  exact List.mem_append_right l hx

/-- A fold of visits only extends the visited set. -/
theorem dfsFold_extend (fuel : Nat) : ∀ (ds : List α) (vis : List α),
    ∃ l, ds.foldl (dfsVisit adj fuel) vis = l ++ vis := by
  intro ds
  induction ds with
  | nil => intro vis; exact ⟨[], rfl⟩
  | cons d ds ihd =>
    intro vis
    obtain ⟨l1, h1⟩ := dfsVisit_extend adj fuel vis d
    obtain ⟨l2, h2⟩ := ihd (dfsVisit adj fuel vis d)
    exact ⟨l2 ++ l1, by
      rw [h1] at h2
      rw [List.foldl_cons, h1, h2, List.append_assoc]⟩

/-- Soundness: every newly visited node is reachable from the visit root. -/
theorem dfsVisit_sound : ∀ (fuel : Nat) (vis : List α) (n : α) (x : α),
    x ∈ dfsVisit adj fuel vis n →
    x ∈ vis ∨ Relation.ReflTransGen (fun a b => b ∈ adj a) n x := by
  intro fuel
  induction fuel with
  | zero => intro vis n x hx; exact Or.inl hx
  | succ fuel ih =>
    have hfold : ∀ (ds : List α) (vis : List α) (n : α),
        (∀ d ∈ ds, Relation.ReflTransGen (fun a b => b ∈ adj a) n d) →
        ∀ x, x ∈ ds.foldl (dfsVisit adj fuel) vis →
          x ∈ vis ∨ Relation.ReflTransGen (fun a b => b ∈ adj a) n x := by
      intro ds
      induction ds with
      | nil => intro vis n _ x hx; exact Or.inl hx
      | cons d ds ihd =>
        intro vis n hreach x hx
        rcases ihd (dfsVisit adj fuel vis d) n
            (fun d' hd' => hreach d' (List.mem_cons_of_mem d hd')) x hx with h | h
        · rcases ih vis d x h with h' | h'
          · exact Or.inl h'
          · exact Or.inr ((hreach d (List.mem_cons_self d ds)).trans h')
        · exact Or.inr h
    intro vis n x hx
    by_cases h : n ∈ vis
    · rw [show dfsVisit adj (fuel + 1) vis n = vis by simp [dfsVisit, h]] at hx
      exact Or.inl hx
    · rw [show dfsVisit adj (fuel + 1) vis n =
          (adj n).foldl (dfsVisit adj fuel) (n :: vis) by simp [dfsVisit, h]] at hx
      rcases hfold (adj n) (n :: vis) n
          (fun d hd => Relation.ReflTransGen.single hd) x hx with h' | h'
      · rcases List.mem_cons.mp h' with h'' | h''
        · exact Or.inr (h'' ▸ Relation.ReflTransGen.refl)
        · exact Or.inl h''
      · exact Or.inr h'

/-- With enough fuel relative to a finite universe closed under adjacency,
a visit keeps the set inside the universe and duplicate-free, visits its
root, and fully explores every newly visited node. -/
theorem dfsVisit_closed (U : List α) (hadjU : ∀ u d, d ∈ adj u → d ∈ U) :
    ∀ (fuel : Nat) (vis : List α) (n : α),
      vis.Nodup → (∀ x ∈ vis, x ∈ U) → n ∈ U →
      U.toFinset.card + 1 ≤ fuel + vis.length →
      ((dfsVisit adj fuel vis n).Nodup ∧
       (∀ x ∈ dfsVisit adj fuel vis n, x ∈ U) ∧
       n ∈ dfsVisit adj fuel vis n ∧
       (∀ u ∈ dfsVisit adj fuel vis n, u ∉ vis →
          ∀ d ∈ adj u, d ∈ dfsVisit adj fuel vis n)) := by
  intro fuel
  induction fuel with
  | zero =>
    intro vis n hnd hvU _ hfuel
    exfalso
    have hsub : vis.toFinset ⊆ U.toFinset := by
      intro x hx
      exact List.mem_toFinset.mpr (hvU x (List.mem_toFinset.mp hx))
    have hcard := Finset.card_le_card hsub
    rw [List.toFinset_card_of_nodup hnd] at hcard
    omega
  | succ fuel ih =>
    have hfold : ∀ (ds : List α) (vis : List α),
        (∀ d ∈ ds, d ∈ U) →
        vis.Nodup → (∀ x ∈ vis, x ∈ U) →
        U.toFinset.card + 1 ≤ fuel + vis.length →
        ((ds.foldl (dfsVisit adj fuel) vis).Nodup ∧
         (∀ x ∈ ds.foldl (dfsVisit adj fuel) vis, x ∈ U) ∧
         (∀ x ∈ vis, x ∈ ds.foldl (dfsVisit adj fuel) vis) ∧
         (∀ d ∈ ds, d ∈ ds.foldl (dfsVisit adj fuel) vis) ∧
         (∀ u ∈ ds.foldl (dfsVisit adj fuel) vis, u ∉ vis →
            ∀ d ∈ adj u, d ∈ ds.foldl (dfsVisit adj fuel) vis)) := by
      intro ds
      induction ds with
      | nil =>
        intro vis _ hnd hvU _
        exact ⟨hnd, hvU, fun x hx => hx, by simp, fun u _ hu => absurd ‹u ∈ vis› hu⟩
      | cons d ds ihd =>
        intro vis hdsU hnd hvU hfuel
        obtain ⟨h1nd, h1U, h1n, h1cl⟩ :=
          ih vis d hnd hvU (hdsU d (List.mem_cons_self d ds)) hfuel
        have hlen : vis.length ≤ (dfsVisit adj fuel vis d).length := by
          obtain ⟨l, hl⟩ := dfsVisit_extend adj fuel vis d
          rw [hl, List.length_append]
          omega
        obtain ⟨h2nd, h2U, h2mono, h2ds, h2cl⟩ :=
          ihd (dfsVisit adj fuel vis d)
            (fun d' hd' => hdsU d' (List.mem_cons_of_mem d hd'))
            h1nd h1U (by omega)
        rw [List.foldl_cons]
        refine ⟨h2nd, h2U, ?_, ?_, ?_⟩
        · intro x hx
          exact h2mono x (dfsVisit_mono adj fuel vis d hx)
        · intro d' hd'
          rcases List.mem_cons.mp hd' with h | h
          · exact h ▸ h2mono d h1n
          · exact h2ds d' h
        · intro u hu hunv e he
          by_cases hu1 : u ∈ dfsVisit adj fuel vis d
          · exact h2mono e (h1cl u hu1 hunv e he)
          · exact h2cl u hu hu1 e he
    intro vis n hnd hvU hnU hfuel
    by_cases h : n ∈ vis
    · rw [show dfsVisit adj (fuel + 1) vis n = vis by simp [dfsVisit, h]]
      exact ⟨hnd, hvU, h, fun u _ hu e he => absurd ‹u ∈ vis› hu⟩
    · rw [show dfsVisit adj (fuel + 1) vis n =
          (adj n).foldl (dfsVisit adj fuel) (n :: vis) by simp [dfsVisit, h]]
      have hnd' : (n :: vis).Nodup := List.nodup_cons.mpr ⟨h, hnd⟩
      have hvU' : ∀ x ∈ n :: vis, x ∈ U := by
        intro x hx
        rcases List.mem_cons.mp hx with h' | h'
        · exact h' ▸ hnU
        · exact hvU x h'
      obtain ⟨hfnd, hfU, hfmono, hfds, hfcl⟩ :=
        hfold (adj n) (n :: vis) (fun d hd => hadjU n d hd) hnd' hvU'
          (by simp only [List.length_cons]; omega)
      refine ⟨hfnd, hfU, hfmono n (List.mem_cons_self n vis), ?_⟩
      intro u hu hunv e he
      by_cases hun : u = n
      · exact hfds e (hun ▸ he)
      · exact hfcl u hu (by
          intro hmem
          rcases List.mem_cons.mp hmem with h' | h'
          · exact hun h'
          · exact hunv h') e he

omit [DecidableEq α] in
/-- A set closed under adjacency contains everything reachable from its
members. -/
theorem mem_of_closed_of_reach {R : List α}
    (hcl : ∀ u ∈ R, ∀ d ∈ adj u, d ∈ R) {s x : α} (hs : s ∈ R)
    (hreach : Relation.ReflTransGen (fun a b => b ∈ adj a) s x) : x ∈ R := by
  induction hreach with
  | refl => exact hs
  | tail _ hstep ih => exact hcl _ ih _ hstep

/-- The multi-source fold from an accumulator that is already closed:
the result is closed, contains the accumulator and all the roots, and every
member is an old member or reachable from some root. -/
theorem dfsStartsAux (U : List α) (hadjU : ∀ u d, d ∈ adj u → d ∈ U)
    (fuel : Nat) (hfuel : U.toFinset.card + 1 ≤ fuel) :
    ∀ (starts acc : List α),
      (∀ s ∈ starts, s ∈ U) → acc.Nodup → (∀ x ∈ acc, x ∈ U) →
      (∀ u ∈ acc, ∀ d ∈ adj u, d ∈ acc) →
      ((starts.foldl (dfsVisit adj fuel) acc).Nodup ∧
       (∀ x ∈ starts.foldl (dfsVisit adj fuel) acc, x ∈ U) ∧
       (∀ u ∈ starts.foldl (dfsVisit adj fuel) acc, ∀ d ∈ adj u,
          d ∈ starts.foldl (dfsVisit adj fuel) acc) ∧
       (∀ x ∈ acc, x ∈ starts.foldl (dfsVisit adj fuel) acc) ∧
       (∀ s ∈ starts, s ∈ starts.foldl (dfsVisit adj fuel) acc) ∧
       (∀ x ∈ starts.foldl (dfsVisit adj fuel) acc,
          x ∈ acc ∨ ∃ s ∈ starts,
            Relation.ReflTransGen (fun a b => b ∈ adj a) s x)) := by
  intro starts
  induction starts with
  | nil =>
    intro acc _ hnd hU hcl
    exact ⟨hnd, hU, hcl, fun x hx => hx, by simp, fun x hx => Or.inl hx⟩
  | cons s starts ihs =>
    intro acc hsU hnd hU hcl
    have hsU0 : s ∈ U := hsU s (List.mem_cons_self s starts)
    obtain ⟨h1nd, h1U, h1s, h1cl⟩ :=
      dfsVisit_closed adj U hadjU fuel acc s hnd hU hsU0 (by omega)
    have h1closed : ∀ u ∈ dfsVisit adj fuel acc s, ∀ d ∈ adj u,
        d ∈ dfsVisit adj fuel acc s := by
      intro u hu d hd
      by_cases hacc : u ∈ acc
      · exact dfsVisit_mono adj fuel acc s (hcl u hacc d hd)
      · exact h1cl u hu hacc d hd
    obtain ⟨h2nd, h2U, h2cl, h2mono, h2starts, h2sound⟩ :=
      ihs (dfsVisit adj fuel acc s)
        (fun s' hs' => hsU s' (List.mem_cons_of_mem s hs'))
        h1nd h1U h1closed
    rw [List.foldl_cons]
    refine ⟨h2nd, h2U, h2cl, ?_, ?_, ?_⟩
    · intro x hx
      exact h2mono x (dfsVisit_mono adj fuel acc s hx)
    · intro s' hs'
      rcases List.mem_cons.mp hs' with h | h
      · exact h ▸ h2mono s h1s
      · exact h2starts s' h
    · intro x hx
      rcases h2sound x hx with h | ⟨s', hs', hr⟩
      · rcases dfsVisit_sound adj fuel acc s x h with h' | h'
        · exact Or.inl h'
        · exact Or.inr ⟨s, List.mem_cons_self s starts, h'⟩
      · exact Or.inr ⟨s', List.mem_cons_of_mem s hs', hr⟩

/-- With enough fuel, the multi-source DFS from the empty set computes
exactly the reachable set. -/
theorem dfsStarts_reachable_iff (U : List α) (hadjU : ∀ u d, d ∈ adj u → d ∈ U)
    (fuel : Nat) (hfuel : U.toFinset.card + 1 ≤ fuel)
    (starts : List α) (hsU : ∀ s ∈ starts, s ∈ U) (x : α) :
    x ∈ starts.foldl (dfsVisit adj fuel) [] ↔
      ∃ s ∈ starts, Relation.ReflTransGen (fun a b => b ∈ adj a) s x := by
  obtain ⟨_, _, hcl, _, hstarts, hsound⟩ :=
    dfsStartsAux adj U hadjU fuel hfuel starts [] hsU List.nodup_nil
      (by simp) (by simp)
  constructor
  · intro hx
    rcases hsound x hx with h | h
    · simp at h
    · exact h
  · rintro ⟨s, hs, hr⟩
    exact mem_of_closed_of_reach adj hcl (hstarts s hs) hr

end DFSLemmas

/-- Membership in the built flow adjacency: an edge from `a` to `b` exists
exactly when `a` is a known node id and some object edge with truthy
endpoints has source `a` and target `b`. -/
theorem flowAdj_mem_iff {d : Yaml} {ns es : List Yaml}
    (hn : d.lookup? "nodes" = some (.arr ns))
    (he : d.lookup? "edges" = some (.arr es))
    (a b : Option Yaml) :
    b ∈ flowAdj d a ↔
      (a ∈ flowNodeIds ns ∧ ∃ e ∈ es, truthyObj e ∧
        truthyOpt (e.lookup? "source") ∧ truthyOpt (e.lookup? "target") ∧
        e.lookup? "source" = a ∧ e.lookup? "target" = b) := by
  have hbody : flowAdj d a =
      (if a ∈ flowNodeIds ns then
        es.filterMap (fun e =>
          if truthyObj e then
            if truthyOpt (e.lookup? "source") ∧ truthyOpt (e.lookup? "target") ∧
               e.lookup? "source" = a then some (e.lookup? "target") else none
          else none)
       else []) := by
    unfold flowAdj
    rw [hn, he]
  rw [hbody]
  by_cases ha : a ∈ flowNodeIds ns
  · simp only [ha, if_true, ite_true, true_and]
    rw [List.mem_filterMap]
    constructor
    · rintro ⟨e, he', hfe⟩
      by_cases ht : truthyObj e
      · rw [if_pos ht] at hfe
        by_cases hc : truthyOpt (e.lookup? "source") ∧ truthyOpt (e.lookup? "target") ∧
            e.lookup? "source" = a
        · rw [if_pos hc] at hfe
          exact ⟨e, he', ht, hc.1, hc.2.1, hc.2.2, Option.some.inj hfe⟩
        · rw [if_neg hc] at hfe; cases hfe
      · rw [if_neg ht] at hfe; cases hfe
    · rintro ⟨e, he', ht, h1, h2, h3, h4⟩
      refine ⟨e, he', ?_⟩
      rw [if_pos ht, if_pos ⟨h1, h2, h3⟩, h4]
  · simp [ha]

/-- C5: with at least one start node, the `UNREACHABLE_NODE` errors of
`validateFlowLayout` are exactly one error per object node that is not
typed `start` and whose id is outside the computed reachable set; that set
contains precisely the values reachable from some start node's id along
the directed edge adjacency; with zero start nodes the check is skipped
and no errors at all are produced.  Concretely, nodes
`{start, a, b, orphan}` with edges `{start→a, a→b}` yield exactly one
error naming `orphan`. -/
theorem validateFlowLayout_reachability :
    (∀ (d : Yaml) (ns es : List Yaml),
      d.lookup? "nodes" = some (.arr ns) →
      d.lookup? "edges" = some (.arr es) →
      ((flowStartNodes ns ≠ [] →
         (validateFlowLayout d).filter (fun e => decide (e.code = .UNREACHABLE_NODE)) =
           ns.filterMap (fun node =>
             if ¬ truthyObj node then none
             else if node.lookup? "type" ≠ some (.str "start") ∧
                     node.lookup? "id" ∉ flowReachable d then
               some (unreachableNodeError (node.lookup? "id"))
             else none)) ∧
       (∀ x, x ∈ flowReachable d ↔
          ∃ s ∈ flowStartIds ns,
            Relation.ReflTransGen (fun a b => b ∈ flowAdj d a) s x) ∧
       (∀ a b, b ∈ flowAdj d a ↔
          (a ∈ flowNodeIds ns ∧ ∃ e ∈ es, truthyObj e ∧
            truthyOpt (e.lookup? "source") ∧ truthyOpt (e.lookup? "target") ∧
            e.lookup? "source" = a ∧ e.lookup? "target" = b)) ∧
       (flowStartNodes ns = [] → validateFlowLayout d = []))) ∧
    validateFlowLayout flowReachDoc = [unreachableNodeError (some (.str "orphan"))] := by
  refine ⟨?_, by decide⟩
  intro d ns es hn he
  have hreach : ∀ x, x ∈ flowReachable d ↔
      ∃ s ∈ flowStartIds ns,
        Relation.ReflTransGen (fun a b => b ∈ flowAdj d a) s x := by
    intro x
    have hbody : flowReachable d =
        (flowStartIds ns).foldl (dfsVisit (flowAdj d) (ns.length + es.length + 1)) [] := by
      unfold flowReachable
      rw [hn, he]
    rw [hbody]
    apply dfsStarts_reachable_iff (flowAdj d)
      (flowNodeIds ns ++ es.map (fun e => e.lookup? "target"))
    · intro u dd hdd
      rcases (flowAdj_mem_iff hn he u dd).mp hdd with ⟨_, e, he', _, _, _, _, htgt⟩
      exact List.mem_append_right _ (htgt ▸ List.mem_map_of_mem _ he')
    · have h1 : (flowNodeIds ns).length ≤ ns.length := by
        unfold flowNodeIds flowObjNodes
        rw [List.length_map]
        exact List.length_filter_le _ ns
      have h2 := List.toFinset_card_le (flowNodeIds ns ++ es.map (fun e => e.lookup? "target"))
      rw [List.length_append, List.length_map] at h2
      omega
    · intro sid hsid
      unfold flowStartIds at hsid
      rcases List.mem_map.mp hsid with ⟨n, hnmem, rfl⟩
      apply List.mem_append_left
      unfold flowNodeIds
      apply List.mem_map_of_mem
      unfold flowStartNodes at hnmem
      unfold flowObjNodes
      rcases List.mem_filter.mp hnmem with ⟨hns, hpred⟩
      simp only [Bool.and_eq_true] at hpred
      exact List.mem_filter.mpr ⟨hns, hpred.1⟩
  refine ⟨?_, hreach, fun a b => flowAdj_mem_iff hn he a b, ?_⟩
  · intro hstart
    have hbody : validateFlowLayout d =
        if flowStartNodes ns = [] then [] else
        (ns.filterMap (fun node =>
          if ¬ truthyObj node then none
          else if node.lookup? "type" ≠ some (.str "start") ∧
                  node.lookup? "id" ∉ flowReachable d then
            some (unreachableNodeError (node.lookup? "id"))
          else none))
        ++ (ns.filterMap (fun node =>
            if ¬ truthyObj node then none
            else if node.lookup? "type" = some (.str "decision") then
              if (es.filter (fun e =>
                   truthyObj e && decide (e.lookup? "source" = node.lookup? "id"))).length < 2 then
                some (createError .MISSING_METADATA "nodes"
                  (some ("Decision node should have at least 2 outgoing edges: " ++
                    jsToStringOpt (node.lookup? "id"))))
              else none
            else none)) := by
      unfold validateFlowLayout
      rw [hn, he]
    rw [hbody, if_neg hstart, List.filter_append]
    have hleft : (ns.filterMap (fun node =>
        if ¬ truthyObj node then none
        else if node.lookup? "type" ≠ some (.str "start") ∧
                node.lookup? "id" ∉ flowReachable d then
          some (unreachableNodeError (node.lookup? "id"))
        else none)).filter (fun e => decide (e.code = .UNREACHABLE_NODE)) =
        ns.filterMap (fun node =>
          if ¬ truthyObj node then none
          else if node.lookup? "type" ≠ some (.str "start") ∧
                  node.lookup? "id" ∉ flowReachable d then
            some (unreachableNodeError (node.lookup? "id"))
          else none) := by
      apply List.filter_eq_self.mpr
      intro a ha
      rcases List.mem_filterMap.mp ha with ⟨node, _, hnode⟩
      by_cases h1 : ¬ truthyObj node
      · rw [if_pos h1] at hnode; cases hnode
      · rw [if_neg h1] at hnode
        by_cases h2 : node.lookup? "type" ≠ some (.str "start") ∧
            node.lookup? "id" ∉ flowReachable d
        · rw [if_pos h2] at hnode
          rw [← Option.some.inj hnode]
          simp [unreachableNodeError, createError]
        · rw [if_neg h2] at hnode; cases hnode
    have hright : (ns.filterMap (fun node =>
        if ¬ truthyObj node then none
        else if node.lookup? "type" = some (.str "decision") then
          if (es.filter (fun e =>
               truthyObj e && decide (e.lookup? "source" = node.lookup? "id"))).length < 2 then
            some (createError .MISSING_METADATA "nodes"
              (some ("Decision node should have at least 2 outgoing edges: " ++
                jsToStringOpt (node.lookup? "id"))))
          else none
        else none)).filter (fun e => decide (e.code = .UNREACHABLE_NODE)) = [] := by
      apply List.filter_eq_nil_iff.mpr
      intro a ha
      rcases List.mem_filterMap.mp ha with ⟨node, _, hnode⟩
      by_cases h1 : ¬ truthyObj node
      · rw [if_pos h1] at hnode; cases hnode
      · rw [if_neg h1] at hnode
        by_cases h2 : node.lookup? "type" = some (.str "decision")
        · rw [if_pos h2] at hnode
          by_cases h3 : (es.filter (fun e =>
              truthyObj e && decide (e.lookup? "source" = node.lookup? "id"))).length < 2
          · rw [if_pos h3] at hnode
            rw [← Option.some.inj hnode]
            simp [createError]
          · rw [if_neg h3] at hnode; cases hnode
        · rw [if_neg h2] at hnode; cases hnode
    rw [hleft, hright, List.append_nil]
  · intro hstart
    have hbody : validateFlowLayout d =
        if flowStartNodes ns = [] then [] else
        (ns.filterMap (fun node =>
          if ¬ truthyObj node then none
          else if node.lookup? "type" ≠ some (.str "start") ∧
                  node.lookup? "id" ∉ flowReachable d then
            some (unreachableNodeError (node.lookup? "id"))
          else none))
        ++ (ns.filterMap (fun node =>
            if ¬ truthyObj node then none
            else if node.lookup? "type" = some (.str "decision") then
              if (es.filter (fun e =>
                   truthyObj e && decide (e.lookup? "source" = node.lookup? "id"))).length < 2 then
                some (createError .MISSING_METADATA "nodes"
                  (some ("Decision node should have at least 2 outgoing edges: " ++
                    jsToStringOpt (node.lookup? "id"))))
              else none
            else none)) := by
      unfold validateFlowLayout
      rw [hn, he]
    rw [hbody, if_pos hstart]

section CycleDFSLemmas

variable {α : Type} [DecidableEq α] (adj : α → List α)

omit [DecidableEq α] in
/-- A finish trace is closed: successors of recorded nodes are recorded. -/
theorem goodFinish_closed : ∀ {F : List α}, GoodFinish adj F →
    ∀ u ∈ F, ∀ d ∈ adj u, d ∈ F := by
  intro F
  induction F with
  | nil => intro _ u hu; cases hu
  | cons v F ih =>
    intro h u hu d hd
    rcases List.mem_cons.mp hu with h' | h'
    · exact List.mem_cons_of_mem v (h.1 d (h' ▸ hd))
    · exact List.mem_cons_of_mem v (ih h.2 u h' d hd)

omit [DecidableEq α] in
/-- Everything reachable from a recorded node is recorded. -/
theorem goodFinish_reach_mem {F : List α} (h : GoodFinish adj F) {c x : α}
    (hc : c ∈ F) (hr : Relation.ReflTransGen (fun a b => b ∈ adj a) c x) : x ∈ F := by
  induction hr with
  | refl => exact hc
  | tail _ hstep ih => exact goodFinish_closed adj h _ ih _ hstep

omit [DecidableEq α] in
/-- A finish trace admits no cycle through any of its nodes. -/
theorem goodFinish_no_cycle : ∀ (F : List α), GoodFinish adj F →
    ∀ a ∈ F, ¬ Relation.TransGen (fun a b => b ∈ adj a) a a := by
  intro F
  induction F with
  | nil => intro _ a ha; cases ha
  | cons u F ih =>
    intro h a ha hcyc
    rcases List.mem_cons.mp ha with h' | h'
    · subst h'
      rcases (Relation.TransGen.head'_iff).mp hcyc with ⟨c, hstep, hrest⟩
      have hcF : c ∈ F := h.1 c hstep
      have haF : a ∈ F := goodFinish_reach_mem adj h.2 hcF hrest
      exact ih h.2 a haF hcyc
    · exact ih h.2 a h' hcyc

omit [DecidableEq α] in
/-- Every stack entry has a non-trivial path to the current node. -/
theorem stackChain_reach : ∀ (stk : List α) (n : α), StackChain adj stk n →
    ∀ a ∈ stk, Relation.TransGen (fun a b => b ∈ adj a) a n := by
  intro stk
  induction stk with
  | nil => intro n _ a ha; cases ha
  | cons s stk ih =>
    intro n h a ha
    rcases List.mem_cons.mp ha with h' | h'
    · exact h' ▸ Relation.TransGen.single h.1
    · exact (ih s h.2 a h').tail h.1

/-- Soundness of `hasCycle`: a `true` verdict exhibits a cycle. -/
theorem dfsCycle_true : ∀ (fuel : Nat) (stk vis : List α) (n : α),
    StackChain adj stk n →
    (dfsCycle adj fuel stk vis n).1 = true →
    ∃ a, Relation.TransGen (fun a b => b ∈ adj a) a a := by
  intro fuel
  induction fuel with
  | zero => intro stk vis n _ h; simp [dfsCycle] at h
  | succ fuel ih =>
    have hfold : ∀ (stk : List α) (n : α) (ds : List α), (∀ d ∈ ds, d ∈ adj n) →
        StackChain adj stk n →
        ∀ (acc : Bool × List α),
          (acc.1 = true → ∃ a, Relation.TransGen (fun a b => b ∈ adj a) a a) →
          (ds.foldl (fun acc d => if acc.1 then acc
            else dfsCycle adj fuel (n :: stk) acc.2 d) acc).1 = true →
          ∃ a, Relation.TransGen (fun a b => b ∈ adj a) a a := by
      intro stk n ds
      induction ds with
      | nil => intro _ _ acc hacc h; exact hacc h
      | cons d ds ihd =>
        intro hds hchain acc hacc h
        rw [List.foldl_cons] at h
        refine ihd (fun d' hd' => hds d' (List.mem_cons_of_mem d hd')) hchain _ ?_ h
        intro htrue
        by_cases hb : acc.1
        · rw [if_pos hb] at htrue
          exact hacc htrue
        · rw [if_neg hb] at htrue
          exact ih (n :: stk) acc.2 d ⟨hds d (List.mem_cons_self d ds), hchain⟩ htrue
    intro stk vis n hchain h
    by_cases hstk : n ∈ stk
    · exact ⟨n, stackChain_reach adj stk n hchain n hstk⟩
    · by_cases hvis : n ∈ vis
      · rw [show dfsCycle adj (fuel + 1) stk vis n = (false, vis) by
          simp [dfsCycle, hstk, hvis]] at h
        cases h
      · rw [show dfsCycle adj (fuel + 1) stk vis n =
            (adj n).foldl (fun acc d => if acc.1 then acc
              else dfsCycle adj fuel (n :: stk) acc.2 d) (false, n :: vis) by
            simp [dfsCycle, hstk, hvis]] at h
        exact hfold stk n (adj n) (fun d hd => hd) hchain (false, n :: vis)
          (by intro hc; cases hc) h

/-- A short-circuited fold that has turned `true` stays `true`. -/
theorem dfsCycleFold_true (fuel : Nat) (stk : List α) :
    ∀ (ds : List α) (v : List α),
      ds.foldl (fun acc d => if acc.1 then acc
        else dfsCycle adj fuel stk acc.2 d) (true, v) = (true, v) := by
  intro ds
  induction ds with
  | nil => intro v; rfl
  | cons x ds ihl =>
    intro v
    rw [List.foldl_cons]
    exact ihl v

/-- The finish-trace lemma: a `false`-returning visit extends the visited
set by fully finished nodes only — there is a finish trace covering the old
trace, the visited node, with all bookkeeping invariants preserved. -/
theorem dfsCycle_false (U : List α) (hadjU : ∀ u d, d ∈ adj u → d ∈ U) :
    ∀ (fuel : Nat) (stk vis F : List α) (n : α) (vis2 : List α),
      vis.Nodup → (∀ x ∈ vis, x ∈ U) → n ∈ U →
      U.toFinset.card + 1 ≤ fuel + vis.length →
      (∀ u ∈ vis, u ∈ stk ∨ u ∈ F) →
      (∀ u ∈ F, u ∈ vis) →
      GoodFinish adj F →
      dfsCycle adj fuel stk vis n = (false, vis2) →
      ∃ F2, GoodFinish adj F2 ∧ (∀ u ∈ F, u ∈ F2) ∧ n ∈ F2 ∧
        vis2.Nodup ∧ (∀ x ∈ vis2, x ∈ U) ∧ (∃ l, vis2 = l ++ vis) ∧
        (∀ u ∈ vis2, u ∈ stk ∨ u ∈ F2) ∧ (∀ u ∈ F2, u ∈ vis2) := by
  intro fuel
  induction fuel with
  | zero =>
    intro stk vis F n vis2 hnd hvU _ hfuel _ _ _ _
    exfalso
    have hsub : vis.toFinset ⊆ U.toFinset := by
      intro x hx
      exact List.mem_toFinset.mpr (hvU x (List.mem_toFinset.mp hx))
    have hcard := Finset.card_le_card hsub
    rw [List.toFinset_card_of_nodup hnd] at hcard
    omega
  | succ fuel ih =>
    intro stk vis F n vis2 hnd hvU hnU hfuel hSV hFV hGF h
    by_cases hstk : n ∈ stk
    · rw [show dfsCycle adj (fuel + 1) stk vis n = (true, vis) by
        simp [dfsCycle, hstk]] at h
      simp at h
    · by_cases hvis : n ∈ vis
      · rw [show dfsCycle adj (fuel + 1) stk vis n = (false, vis) by
          simp [dfsCycle, hstk, hvis]] at h
        injection h with _ h2
        subst h2
        have hnF : n ∈ F := by
          rcases hSV n hvis with h' | h'
          · exact absurd h' hstk
          · exact h'
        exact ⟨F, hGF, fun u hu => hu, hnF, hnd, hvU, ⟨[], rfl⟩, hSV, hFV⟩
      · rw [show dfsCycle adj (fuel + 1) stk vis n =
            (adj n).foldl (fun acc d => if acc.1 then acc
              else dfsCycle adj fuel (n :: stk) acc.2 d) (false, n :: vis) by
            simp [dfsCycle, hstk, hvis]] at h
        have hfold : ∀ (ds : List α), (∀ d ∈ ds, d ∈ U) →
            ∀ (vis0 F0 visR : List α),
              vis0.Nodup → (∀ x ∈ vis0, x ∈ U) →
              U.toFinset.card + 1 ≤ fuel + vis0.length →
              (∀ u ∈ vis0, u ∈ n :: stk ∨ u ∈ F0) →
              (∀ u ∈ F0, u ∈ vis0) →
              GoodFinish adj F0 →
              ds.foldl (fun acc d => if acc.1 then acc
                else dfsCycle adj fuel (n :: stk) acc.2 d) (false, vis0) = (false, visR) →
              ∃ FR, GoodFinish adj FR ∧ (∀ u ∈ F0, u ∈ FR) ∧ (∀ d ∈ ds, d ∈ FR) ∧
                visR.Nodup ∧ (∀ x ∈ visR, x ∈ U) ∧ (∃ l, visR = l ++ vis0) ∧
                (∀ u ∈ visR, u ∈ n :: stk ∨ u ∈ FR) ∧ (∀ u ∈ FR, u ∈ visR) := by
          intro ds
          induction ds with
          | nil =>
            intro _ vis0 F0 visR hnd0 hU0 _ hSV0 hFV0 hGF0 hfoldr
            injection hfoldr with _ h2
            subst h2
            exact ⟨F0, hGF0, fun u hu => hu, (by intro d hd; cases hd), hnd0, hU0,
              ⟨[], rfl⟩, hSV0, hFV0⟩
          | cons d ds ihd =>
            intro hds vis0 F0 visR hnd0 hU0 hf0 hSV0 hFV0 hGF0 hfoldr
            rw [List.foldl_cons] at hfoldr
            change ds.foldl _ (dfsCycle adj fuel (n :: stk) vis0 d) = (false, visR) at hfoldr
            rcases hdc : dfsCycle adj fuel (n :: stk) vis0 d with ⟨b, vis1⟩
            cases b
            case true =>
              rw [hdc, dfsCycleFold_true adj fuel (n :: stk) ds vis1] at hfoldr
              simp at hfoldr
            case false =>
              rw [hdc] at hfoldr
              obtain ⟨F1, hGF1, hF01, hdF1, hnd1, hU1, ⟨l1, hl1⟩, hSV1, hFV1⟩ :=
                ih (n :: stk) vis0 F0 d vis1 hnd0 hU0
                  (hds d (List.mem_cons_self d ds)) hf0 hSV0 hFV0 hGF0 hdc
              have hlen1 : vis0.length ≤ vis1.length := by
                rw [hl1, List.length_append]; omega
              obtain ⟨FR, hGFR, hF1R, hdsR, hndR, hUR, ⟨l2, hl2⟩, hSVR, hFVR⟩ :=
                ihd (fun d' hd' => hds d' (List.mem_cons_of_mem d hd'))
                  vis1 F1 visR hnd1 hU1 (by omega) hSV1 hFV1 hGF1 hfoldr
              refine ⟨FR, hGFR, fun u hu => hF1R u (hF01 u hu), ?_, hndR, hUR,
                ⟨l2 ++ l1, by rw [hl2, hl1, List.append_assoc]⟩, hSVR, hFVR⟩
              intro d' hd'
              rcases List.mem_cons.mp hd' with h' | h'
              · exact h' ▸ hF1R d hdF1
              · exact hdsR d' h'
        have hnd' : (n :: vis).Nodup := List.nodup_cons.mpr ⟨hvis, hnd⟩
        have hvU' : ∀ x ∈ n :: vis, x ∈ U := by
          intro x hx
          rcases List.mem_cons.mp hx with h' | h'
          · exact h' ▸ hnU
          · exact hvU x h'
        obtain ⟨FR, hGFR, hFR0, hadjFR, hndR, hUR, ⟨l, hl⟩, hSVR, hFVR⟩ :=
          hfold (adj n) (fun d hd => hadjU n d hd) (n :: vis) F vis2 hnd' hvU'
            (by simp only [List.length_cons]; omega)
            (by
              intro u hu
              rcases List.mem_cons.mp hu with h' | h'
              · exact Or.inl (h' ▸ List.mem_cons_self n stk)
              · rcases hSV u h' with h'' | h''
                · exact Or.inl (List.mem_cons_of_mem n h'')
                · exact Or.inr h'')
            (fun u hu => List.mem_cons_of_mem n (hFV u hu))
            hGF h
        have hnvis2 : n ∈ vis2 := by
          rw [hl]
          exact List.mem_append_right l (List.mem_cons_self n vis)
        refine ⟨n :: FR, ⟨fun d hd => hadjFR d hd, hGFR⟩,
          (fun u hu => List.mem_cons_of_mem n (hFR0 u hu)),
          List.mem_cons_self n FR, hndR, hUR,
          ⟨l ++ [n], by rw [hl]; simp⟩, ?_, ?_⟩
        · intro u hu
          rcases hSVR u hu with h' | h'
          · rcases List.mem_cons.mp h' with h'' | h''
            · exact Or.inr (h'' ▸ List.mem_cons_self n FR)
            · exact Or.inl h''
          · exact Or.inr (List.mem_cons_of_mem n h')
        · intro u hu
          rcases List.mem_cons.mp hu with h' | h'
          · exact h' ▸ hnvis2
          · exact hFVR u h'

end CycleDFSLemmas

/-- A `some` verdict of the model loop exhibits a cycle in the adjacency. -/
theorem erdFindCycle_some (adjS : String → List String) (fuel : Nat) :
    ∀ (ms vis : List String) (m : String),
      erdFindCycle adjS fuel vis ms = some m →
      ∃ a, Relation.TransGen (fun a b => b ∈ adjS a) a a := by
  intro ms
  induction ms with
  | nil => intro vis m h; cases h
  | cons m' ms ih =>
    intro vis m h
    simp only [erdFindCycle] at h
    rcases hr : dfsCycle adjS fuel [] vis m' with ⟨b, vis1⟩
    rw [hr] at h
    cases b
    case true =>
      exact dfsCycle_true adjS fuel [] vis m' trivial (by rw [hr])
    case false =>
      exact ih vis1 m (by simpa using h)

/-- A `none` verdict of the model loop produces a finish trace covering all
the scanned roots. -/
theorem erdFindCycle_none (adjS : String → List String) (U : List String)
    (hadjU : ∀ u d, d ∈ adjS u → d ∈ U) (fuel : Nat)
    (hfuel : U.toFinset.card + 1 ≤ fuel) :
    ∀ (ms vis F : List String),
      (∀ m ∈ ms, m ∈ U) →
      vis.Nodup → (∀ x ∈ vis, x ∈ U) →
      (∀ u ∈ vis, u ∈ F) → (∀ u ∈ F, u ∈ vis) → GoodFinish adjS F →
      erdFindCycle adjS fuel vis ms = none →
      ∃ F2, GoodFinish adjS F2 ∧ (∀ u ∈ F, u ∈ F2) ∧ (∀ m ∈ ms, m ∈ F2) := by
  intro ms
  induction ms with
  | nil =>
    intro vis F _ _ _ _ _ hGF _
    exact ⟨F, hGF, fun u hu => hu, by intro m hm; cases hm⟩
  | cons m ms ih =>
    intro vis F hmsU hnd hvU hVF hFV hGF h
    simp only [erdFindCycle] at h
    rcases hr : dfsCycle adjS fuel [] vis m with ⟨b, vis1⟩
    rw [hr] at h
    cases b
    case true => simp at h
    case false =>
      obtain ⟨F1, hGF1, hFF1, hmF1, hnd1, hU1, _, hSV1, hFV1⟩ :=
        dfsCycle_false adjS U hadjU fuel [] vis F m vis1 hnd hvU
          (hmsU m (List.mem_cons_self m ms)) (by omega)
          (fun u hu => Or.inr (hVF u hu)) hFV hGF hr
      have hVF1 : ∀ u ∈ vis1, u ∈ F1 := by
        intro u hu
        rcases hSV1 u hu with h' | h'
        · cases h'
        · exact h'
      obtain ⟨F2, hGF2, hF12, hms2⟩ :=
        ih vis1 F1 (fun m' hm' => hmsU m' (List.mem_cons_of_mem m hm'))
          hnd1 hU1 hVF1 hFV1 hGF1 (by simpa using h)
      refine ⟨F2, hGF2, fun u hu => hF12 u (hFF1 u hu), ?_⟩
      intro m' hm'
      rcases List.mem_cons.mp hm' with h' | h'
      · exact h' ▸ hF12 m hmF1
      · exact hms2 m' h'

/-- With unique keys, `find?` by key is the same as membership. -/
theorem find_key_iff {kvs : List (String × Yaml)}
    (hnd : (kvs.map Prod.fst).Nodup) {m : String} {mv : Yaml} :
    kvs.find? (fun p => p.1 = m) = some (m, mv) ↔ (m, mv) ∈ kvs := by
  constructor
  · intro h
    exact List.mem_of_find?_eq_some h
  · intro hmem
    induction kvs with
    | nil => cases hmem
    | cons p kvs ih =>
      rcases List.mem_cons.mp hmem with h' | h'
      · subst h'
        simp [List.find?_cons]
      · have hk : p.1 ≠ m := by
          intro hk
          rw [List.map_cons, List.nodup_cons] at hnd
          exact hnd.1 (hk ▸ List.mem_map_of_mem Prod.fst h')
        rw [List.find?_cons, show decide (p.1 = m) = false from by simp [hk]]
        exact ih (by rw [List.map_cons, List.nodup_cons] at hnd; exact hnd.2) h'

/-- The dependency a field contributes, characterized declaratively. -/
theorem erdFieldDep_some_iff {names : List String} {m : String} {f : Yaml} {t : String} :
    erdFieldDep names m f = some t ↔
      (jsTruthy f ∧ truthyOpt (f.lookup? "attributes") ∧
       truthyOpt (chain? (f.lookup? "attributes") "foreign_key") ∧
       chain? (chain? (f.lookup? "attributes") "foreign_key") "table" = some (.str t) ∧
       t ≠ "" ∧ t ∈ names ∧ t ≠ m) := by
  constructor
  · intro h
    by_cases h1 : jsTruthy f
    · by_cases h2 : truthyOpt (f.lookup? "attributes")
      · by_cases h3 : truthyOpt (chain? (f.lookup? "attributes") "foreign_key")
        · rcases htab : chain? (chain? (f.lookup? "attributes") "foreign_key") "table" with _ | v
          · rw [show erdFieldDep names m f = none from by
              simp [erdFieldDep, h1, h2, h3, htab]] at h
            cases h
          · cases v with
            | str t2 =>
              by_cases hc : t2 ≠ "" ∧ t2 ∈ names ∧ t2 ≠ m
              · rw [show erdFieldDep names m f = some t2 from by
                  simp [erdFieldDep, h1, h2, h3, htab, hc]] at h
                injection h with h
                subst h
                exact ⟨h1, h2, h3, rfl, hc⟩
              · rw [show erdFieldDep names m f = none from by
                  simp [erdFieldDep, h1, h2, h3, htab, hc]] at h
                cases h
            | null =>
              rw [show erdFieldDep names m f = none from by
                simp [erdFieldDep, h1, h2, h3, htab]] at h
              cases h
            | bool b =>
              rw [show erdFieldDep names m f = none from by
                simp [erdFieldDep, h1, h2, h3, htab]] at h
              cases h
            | num n =>
              rw [show erdFieldDep names m f = none from by
                simp [erdFieldDep, h1, h2, h3, htab]] at h
              cases h
            | arr xs =>
              rw [show erdFieldDep names m f = none from by
                simp [erdFieldDep, h1, h2, h3, htab]] at h
              cases h
            | obj kvs2 =>
              rw [show erdFieldDep names m f = none from by
                simp [erdFieldDep, h1, h2, h3, htab]] at h
              cases h
        · rw [show erdFieldDep names m f = none from by
            simp [erdFieldDep, h1, h2, h3]] at h
          cases h
      · rw [show erdFieldDep names m f = none from by
          simp [erdFieldDep, h1, h2]] at h
        cases h
    · rw [show erdFieldDep names m f = none from by
        simp [erdFieldDep, h1]] at h
      cases h
  · rintro ⟨h1, h2, h3, htab, hc1, hc2, hc3⟩
    simp [erdFieldDep, h1, h2, h3, htab, hc1, hc2, hc3]

/-- Only model names appear as dependency targets. -/
theorem erdAdj_subset_keys {d : Yaml} {kvs : List (String × Yaml)}
    (hd : d.lookup? "models" = some (.obj kvs)) :
    ∀ m t, t ∈ erdAdj d m → t ∈ kvs.map Prod.fst := by
  intro m t ht
  have hbody : erdAdj d m =
      (match (objEntries (.obj kvs)).find? (fun p => p.1 = m) with
       | some entry =>
         if truthyObjOpt (entry.2.lookup? "fields") then
           (objValues ((entry.2.lookup? "fields").getD .null)).filterMap
             (erdFieldDep (objKeys (.obj kvs)) m)
         else []
       | none => []) := by
    unfold erdAdj
    rw [hd]
  rcases hfind : (objEntries (.obj kvs)).find? (fun p => p.1 = m) with _ | entry
  · simp only [hfind] at hbody
    rw [hbody] at ht
    cases ht
  · simp only [hfind] at hbody
    rw [hbody] at ht
    by_cases hg : truthyObjOpt (entry.2.lookup? "fields")
    · rw [if_pos hg] at ht
      rcases List.mem_filterMap.mp ht with ⟨f, _, hdep⟩
      exact (erdFieldDep_some_iff.mp hdep).2.2.2.2.2.1
    · rw [if_neg hg] at ht; cases ht

/-- Membership in the built ERD dependency graph coincides with the
declarative foreign-key edge relation. -/
theorem erdAdj_mem_iff {d : Yaml} {kvs : List (String × Yaml)}
    (hd : d.lookup? "models" = some (.obj kvs))
    (hnd : (kvs.map Prod.fst).Nodup) (m t : String) :
    t ∈ erdAdj d m ↔ ErdEdge kvs m t := by
  have hbody : erdAdj d m =
      (match (objEntries (.obj kvs)).find? (fun p => p.1 = m) with
       | some entry =>
         if truthyObjOpt (entry.2.lookup? "fields") then
           (objValues ((entry.2.lookup? "fields").getD .null)).filterMap
             (erdFieldDep (objKeys (.obj kvs)) m)
         else []
       | none => []) := by
    unfold erdAdj
    rw [hd]
  constructor
  · intro ht
    rcases hfind : (objEntries (.obj kvs)).find? (fun p => p.1 = m) with _ | entry
    · simp only [hfind] at hbody
      rw [hbody] at ht
      cases ht
    · simp only [hfind] at hbody
      rw [hbody] at ht
      by_cases hg : truthyObjOpt (entry.2.lookup? "fields")
      · rw [if_pos hg] at ht
        rcases List.mem_filterMap.mp ht with ⟨f, hf, hdep⟩
        rcases erdFieldDep_some_iff.mp hdep with ⟨ha, hb, hc, hdd, he, hmem, hne⟩
        have hkey : entry.1 = m := by simpa using List.find?_some hfind
        have hment : (m, entry.2) ∈ kvs := by
          have := List.mem_of_find?_eq_some hfind
          rw [objEntries_obj] at this
          rw [← hkey]
          exact this
        exact ⟨entry.2, hment, hg, f, hf, ha, hb, hc, hdd, he, hmem, hne⟩
      · rw [if_neg hg] at ht; cases ht
  · rintro ⟨mv, hment, hg, f, hf, ha, hb, hc, hdd, he, hmem, hne⟩
    have hfind : (objEntries (.obj kvs)).find? (fun p => p.1 = m) = some (m, mv) := by
      rw [objEntries_obj]
      exact (find_key_iff hnd).mpr hment
    simp only [hfind] at hbody
    rw [hbody, if_pos hg]
    exact List.mem_filterMap.mpr ⟨f, hf,
      erdFieldDep_some_iff.mpr ⟨ha, hb, hc, hdd, he, hmem, hne⟩⟩

/-- Congruence of transitive closures under pointwise equivalence. -/
theorem transGen_iff_of_iff {β : Type} {r s : β → β → Prop}
    (h : ∀ x y, r x y ↔ s x y) {a b : β} :
    Relation.TransGen r a b ↔ Relation.TransGen s a b :=
  ⟨Relation.TransGen.mono (fun x y hxy => (h x y).mp hxy),
   Relation.TransGen.mono (fun x y hxy => (h x y).mpr hxy)⟩

/-- C5 (witness): the reachability theorem applied to the
`{start, a, b, orphan}` document. -/
theorem validateFlowLayout_reachability_witness :
    (validateFlowLayout flowReachDoc).filter
        (fun e => decide (e.code = .UNREACHABLE_NODE)) =
      [flowNode "start" "start", flowNode "a" "process",
       flowNode "b" "process", flowNode "orphan" "process"].filterMap (fun node =>
        if ¬ truthyObj node then none
        else if node.lookup? "type" ≠ some (.str "start") ∧
                node.lookup? "id" ∉ flowReachable flowReachDoc then
          some (unreachableNodeError (node.lookup? "id"))
        else none) :=
  (validateFlowLayout_reachability.1 flowReachDoc
    [flowNode "start" "start", flowNode "a" "process",
     flowNode "b" "process", flowNode "orphan" "process"]
    [flowEdge "e1" "start" "a", flowEdge "e2" "a" "b"]
    (by decide) (by decide)).1 (by decide)

/-- C4: over any document whose `models` key holds an object with distinct
model names, `validateERDLayout` emits at most one error, every emitted
error is a `CIRCULAR_DEPENDENCY`, and it emits an error exactly when the
directed foreign-key dependency graph (edge `m → t` when some field of `m`
carries a foreign key whose `table` is the distinct existing model `t`) has
a cycle; concretely, the `A → B → C → A` document yields exactly the one
error naming `A`, and the acyclic `A → B → C` document yields none. -/
theorem validateERDLayout_cycle_detection :
    (∀ (d : Yaml) (kvs : List (String × Yaml)),
        d.lookup? "models" = some (.obj kvs) →
        (kvs.map Prod.fst).Nodup →
        (validateERDLayout d).length ≤ 1 ∧
        (∀ e ∈ validateERDLayout d, e.code = .CIRCULAR_DEPENDENCY) ∧
        (validateERDLayout d ≠ [] ↔ ∃ a, Relation.TransGen (ErdEdge kvs) a a)) ∧
    validateERDLayout erdCycleDoc = [circularDependencyError "A"] ∧
    validateERDLayout erdAcyclicDoc = [] := by
  refine ⟨?_, by decide, by decide⟩
  intro d kvs hd hnd
  have hbody : validateERDLayout d =
      (match erdFindCycle (erdAdj d) ((kvs.map Prod.fst).length + 1) []
          (kvs.map Prod.fst) with
       | some modelName => [circularDependencyError modelName]
       | none => []) := by
    unfold validateERDLayout
    rw [hd]
    rfl
  have hadjU : ∀ u t, t ∈ erdAdj d u → t ∈ kvs.map Prod.fst :=
    fun u t ht => erdAdj_subset_keys hd u t ht
  have hiff : ∀ x y, (y ∈ erdAdj d x) ↔ ErdEdge kvs x y :=
    fun x y => erdAdj_mem_iff hd hnd x y
  rcases hres : erdFindCycle (erdAdj d) ((kvs.map Prod.fst).length + 1) []
      (kvs.map Prod.fst) with _ | n
  · have hval : validateERDLayout d = [] := by
      rw [hbody]
      simp only [hres]
    rw [hval]
    refine ⟨by simp, ?_, ?_⟩
    · intro e he
      cases he
    constructor
    · intro hne
      exact absurd rfl hne
    · rintro ⟨a, hcyc⟩
      exfalso
      have hcyc2 : Relation.TransGen (fun a b => b ∈ erdAdj d a) a a :=
        (transGen_iff_of_iff hiff).mpr hcyc
      obtain ⟨b, _, hstep⟩ := Relation.TransGen.tail'_iff.mp hcyc2
      have haU : a ∈ kvs.map Prod.fst := hadjU b a hstep
      obtain ⟨F2, hGF2, _, hUF2⟩ :=
        erdFindCycle_none (erdAdj d) (kvs.map Prod.fst) hadjU
          ((kvs.map Prod.fst).length + 1)
          (by have := List.toFinset_card_le (kvs.map Prod.fst); omega)
          (kvs.map Prod.fst) [] []
          (fun m hm => hm) List.nodup_nil (by intro x hx; cases hx)
          (by intro u hu; cases hu) (by intro u hu; cases hu)
          trivial hres
      exact goodFinish_no_cycle (erdAdj d) F2 hGF2 a (hUF2 a haU) hcyc2
  · have hval : validateERDLayout d = [circularDependencyError n] := by
      rw [hbody]
      simp only [hres]
    rw [hval]
    refine ⟨by simp, ?_, ?_⟩
    · intro e he
      rw [List.mem_singleton] at he
      subst he
      rfl
    · constructor
      · intro _
        rcases erdFindCycle_some (erdAdj d) ((kvs.map Prod.fst).length + 1)
            (kvs.map Prod.fst) [] n hres with ⟨a, hcyc⟩
        exact ⟨a, (transGen_iff_of_iff hiff).mp hcyc⟩
      · intro _
        simp

/-- C4 (witness): the cycle-detection theorem applied to the cyclic
`A → B → C → A` document together with its explicit models list. -/
theorem validateERDLayout_cycle_detection_witness :
    (validateERDLayout erdCycleDoc).length ≤ 1 ∧
    (validateERDLayout erdCycleDoc ≠ [] ↔
      ∃ a, Relation.TransGen (ErdEdge erdCycleKvs) a a) :=
  ⟨(validateERDLayout_cycle_detection.1 erdCycleDoc erdCycleKvs
      (by decide) (by decide)).1,
   (validateERDLayout_cycle_detection.1 erdCycleDoc erdCycleKvs
      (by decide) (by decide)).2.2⟩

/-! ## Relation-linking lemmas -/

/-- `relationsOf` through its per-field step. -/
theorem relationsOf_eq (s : PrismaSchema) :
    relationsOf s =
      s.models.foldl (fun acc m => m.fields.foldl (relFieldStep m) acc) [] := rfl

/-- `buildRelations` through its per-bucket step. -/
theorem buildRelations_eq (s : PrismaSchema) :
    buildRelations s = (relationsOf s).foldl relLinkStep s := rfl

/-- `getField` is `mfind` on the model list. -/
theorem getField_eq_mfind (s : PrismaSchema) (mName fName : String) :
    getField s mName fName = mfind s.models mName fName := rfl

/-- `find?` on the updated list, same predicate: the found element is the
updated one. -/
theorem updateFirstBy_find?_same {β : Type} (p : β → Bool) (u : β → β)
    (hpu : ∀ y, p (u y) = p y) :
    ∀ l : List β, (updateFirstBy p u l).find? p = (l.find? p).map u := by
  intro l
  induction l with
  | nil => rfl
  | cons a l ih =>
    by_cases ha : p a = true
    · have h1 : updateFirstBy p u (a :: l) = u a :: l := by
        simp [updateFirstBy, ha]
      rw [h1, List.find?_cons_of_pos l (by rw [hpu a]; exact ha),
          List.find?_cons_of_pos l ha]
      rfl
    · have h1 : updateFirstBy p u (a :: l) = a :: updateFirstBy p u l := by
        simp [updateFirstBy, ha]
      rw [h1, List.find?_cons_of_neg _ ha, List.find?_cons_of_neg _ ha]
      exact ih

/-- `find?` on the updated list, disjoint predicate: nothing changes. -/
theorem updateFirstBy_find?_other {β : Type} (p q : β → Bool) (u : β → β)
    (hqu : ∀ y, q (u y) = q y) (hpq : ∀ y, p y = true → q y = false) :
    ∀ l : List β, (updateFirstBy p u l).find? q = l.find? q := by
  intro l
  induction l with
  | nil => rfl
  | cons a l ih =>
    by_cases ha : p a = true
    · have h1 : updateFirstBy p u (a :: l) = u a :: l := by
        simp [updateFirstBy, ha]
      have hqa : q a = false := hpq a ha
      rw [h1, List.find?_cons_of_neg l (by simp [hqu a, hqa]),
          List.find?_cons_of_neg l (by simp [hqa])]
    · have h1 : updateFirstBy p u (a :: l) = a :: updateFirstBy p u l := by
        simp [updateFirstBy, ha]
      by_cases hqa : q a = true
      · rw [h1, List.find?_cons_of_pos _ hqa, List.find?_cons_of_pos _ hqa]
      · rw [h1, List.find?_cons_of_neg _ hqa, List.find?_cons_of_neg _ hqa]
        exact ih

/-- Updating one field of one model leaves every other cell of `mfind`
unchanged. -/
theorem mfind_update_ne {l : List PrismaModel} {M F T m0 f0 : String}
    (h : ¬(m0 = M ∧ f0 = F)) :
    mfind (updateFirstBy (fun m => m.name = M) (setFieldRelation F T) l) m0 f0 =
      mfind l m0 f0 := by
  by_cases hm : m0 = M
  · subst hm
    have hf : f0 ≠ F := fun hf => h ⟨rfl, hf⟩
    unfold mfind
    rw [updateFirstBy_find?_same (fun (m : PrismaModel) => m.name = m0)
      (setFieldRelation F T) (fun y => rfl)]
    cases hfind : l.find? (fun (m : PrismaModel) => m.name = m0) with
    | none => rfl
    | some m =>
      show (setFieldRelation F T m).fields.find? (fun f2 => f2.name = f0) =
        m.fields.find? (fun f2 => f2.name = f0)
      show (updateFirstBy (fun (f2 : PrismaField) => f2.name = F)
          (fun f2 => { f2 with relationToModel := some T }) m.fields).find?
            (fun f2 => f2.name = f0) =
        m.fields.find? (fun f2 => f2.name = f0)
      exact updateFirstBy_find?_other (fun (f2 : PrismaField) => f2.name = F)
        (fun (f2 : PrismaField) => f2.name = f0)
        (fun f2 => { f2 with relationToModel := some T }) (fun y => rfl)
        (fun y hy => decide_eq_false
          (fun hc => hf (hc.symm.trans (of_decide_eq_true hy)))) m.fields
  · unfold mfind
    rw [updateFirstBy_find?_other (fun (m : PrismaModel) => m.name = M)
      (fun (m : PrismaModel) => m.name = m0)
      (setFieldRelation F T) (fun y => rfl)
      (fun y hy => decide_eq_false
        (fun hc => hm (hc.symm.trans (of_decide_eq_true hy))))]

/-- Updating a field through the two nested `updateFirstBy` calls is visible
at exactly that cell of `mfind`. -/
theorem mfind_update_self {l : List PrismaModel} {M F T : String}
    {f : PrismaField} (h : mfind l M F = some f) :
    mfind (updateFirstBy (fun m => m.name = M) (setFieldRelation F T) l) M F =
      some { f with relationToModel := some T } := by
  unfold mfind at h ⊢
  rcases hfind : l.find? (fun m => m.name = M) with _ | m
  · rw [hfind] at h
    cases h
  · rw [hfind] at h
    simp only [Option.some_bind] at h
    rw [updateFirstBy_find?_same (fun (m : PrismaModel) => m.name = M)
      (setFieldRelation F T) (fun y => rfl), hfind]
    show (setFieldRelation F T m).fields.find? (fun f2 => f2.name = F) =
      some { f with relationToModel := some T }
    show (updateFirstBy (fun (f2 : PrismaField) => f2.name = F)
        (fun f2 => { f2 with relationToModel := some T }) m.fields).find?
          (fun f2 => f2.name = F) =
      some { f with relationToModel := some T }
    rw [updateFirstBy_find?_same (fun (f2 : PrismaField) => f2.name = F)
      (fun f2 => { f2 with relationToModel := some T }) (fun y => rfl), h]
    rfl

/-- `linkPair` changes nothing at a cell other than the two it targets. -/
theorem linkPair_getField_ne {sch : PrismaSchema} {e1 e2 : RelEntry}
    {m0 f0 : String}
    (h1 : ¬(m0 = e1.fromModel ∧ f0 = e1.fromField))
    (h2 : ¬(m0 = e2.fromModel ∧ f0 = e2.fromField)) :
    getField (linkPair sch e1 e2) m0 f0 = getField sch m0 f0 := by
  rcases hf1 : sch.models.find? (fun (m : PrismaModel) => m.name = e1.fromModel)
    with _ | m1
  · have hraw : linkPair sch e1 e2 = sch := by
      unfold linkPair
      rw [hf1]
    rw [hraw]
  · rcases hf2 : sch.models.find? (fun (m : PrismaModel) => m.name = e2.fromModel)
      with _ | m2
    · have hraw : linkPair sch e1 e2 = sch := by
        unfold linkPair
        rw [hf1, hf2]
      rw [hraw]
    · have hraw : (linkPair sch e1 e2).models =
          (if (m2.fields.find? (fun (f : PrismaField) => f.name = e2.fromField)).isSome = true then
            updateFirstBy (fun m => m.name = e2.fromModel)
              (setFieldRelation e2.fromField e1.fromModel)
              (if (m1.fields.find? (fun (f : PrismaField) => f.name = e1.fromField)).isSome = true then
                updateFirstBy (fun m => m.name = e1.fromModel)
                  (setFieldRelation e1.fromField e2.fromModel) sch.models
              else sch.models)
          else
            (if (m1.fields.find? (fun (f : PrismaField) => f.name = e1.fromField)).isSome = true then
              updateFirstBy (fun m => m.name = e1.fromModel)
                (setFieldRelation e1.fromField e2.fromModel) sch.models
            else sch.models)) := by
        unfold linkPair
        rw [hf1, hf2]
      rw [getField_eq_mfind, getField_eq_mfind, hraw]
      by_cases c2 : (m2.fields.find? (fun (f : PrismaField) => f.name = e2.fromField)).isSome = true
      · rw [if_pos c2, mfind_update_ne h2]
        by_cases c1 : (m1.fields.find? (fun (f : PrismaField) => f.name = e1.fromField)).isSome = true
        · rw [if_pos c1, mfind_update_ne h1]
        · rw [if_neg c1]
      · rw [if_neg c2]
        by_cases c1 : (m1.fields.find? (fun (f : PrismaField) => f.name = e1.fromField)).isSome = true
        · rw [if_pos c1, mfind_update_ne h1]
        · rw [if_neg c1]

/-- The positive case of `linkPair`: both targeted cells exist and the two
owning models differ, so each cell gets the other side as its
`relationToModel`. -/
theorem linkPair_links {sch : PrismaSchema} {e1 e2 : RelEntry}
    {f1 f2 : PrismaField}
    (hne : e1.fromModel ≠ e2.fromModel)
    (h1 : getField sch e1.fromModel e1.fromField = some f1)
    (h2 : getField sch e2.fromModel e2.fromField = some f2) :
    getField (linkPair sch e1 e2) e1.fromModel e1.fromField =
      some { f1 with relationToModel := some e2.fromModel } ∧
    getField (linkPair sch e1 e2) e2.fromModel e2.fromField =
      some { f2 with relationToModel := some e1.fromModel } := by
  rw [getField_eq_mfind] at h1 h2
  rcases hf1 : sch.models.find? (fun (m : PrismaModel) => m.name = e1.fromModel)
    with _ | m1
  · unfold mfind at h1
    rw [hf1] at h1
    cases h1
  rcases hf2 : sch.models.find? (fun (m : PrismaModel) => m.name = e2.fromModel)
    with _ | m2
  · unfold mfind at h2
    rw [hf2] at h2
    cases h2
  have hm1f : m1.fields.find? (fun (f : PrismaField) => f.name = e1.fromField) = some f1 := by
    unfold mfind at h1
    rw [hf1] at h1
    simpa using h1
  have hm2f : m2.fields.find? (fun (f : PrismaField) => f.name = e2.fromField) = some f2 := by
    unfold mfind at h2
    rw [hf2] at h2
    simpa using h2
  have hc1 : (m1.fields.find? (fun (f : PrismaField) => f.name = e1.fromField)).isSome = true := by
    rw [hm1f]
    rfl
  have hc2 : (m2.fields.find? (fun (f : PrismaField) => f.name = e2.fromField)).isSome = true := by
    rw [hm2f]
    rfl
  have hraw : (linkPair sch e1 e2).models =
      (if (m2.fields.find? (fun (f : PrismaField) => f.name = e2.fromField)).isSome = true then
        updateFirstBy (fun m => m.name = e2.fromModel)
          (setFieldRelation e2.fromField e1.fromModel)
          (if (m1.fields.find? (fun (f : PrismaField) => f.name = e1.fromField)).isSome = true then
            updateFirstBy (fun m => m.name = e1.fromModel)
              (setFieldRelation e1.fromField e2.fromModel) sch.models
          else sch.models)
      else
        (if (m1.fields.find? (fun (f : PrismaField) => f.name = e1.fromField)).isSome = true then
          updateFirstBy (fun m => m.name = e1.fromModel)
            (setFieldRelation e1.fromField e2.fromModel) sch.models
        else sch.models)) := by
    unfold linkPair
    rw [hf1, hf2]
  have hmods : (linkPair sch e1 e2).models =
      updateFirstBy (fun m => m.name = e2.fromModel)
        (setFieldRelation e2.fromField e1.fromModel)
        (updateFirstBy (fun m => m.name = e1.fromModel)
          (setFieldRelation e1.fromField e2.fromModel) sch.models) := by
    rw [hraw, if_pos hc2, if_pos hc1]
  constructor
  · rw [getField_eq_mfind, hmods,
        mfind_update_ne (fun hc => hne hc.1)]
    exact mfind_update_self h1
  · rw [getField_eq_mfind, hmods]
    have h22 : mfind (updateFirstBy (fun m => m.name = e1.fromModel)
        (setFieldRelation e1.fromField e2.fromModel) sch.models)
        e2.fromModel e2.fromField = some f2 := by
      rw [mfind_update_ne (fun hc => hne hc.1.symm)]
      exact h2
    exact mfind_update_self h22

/-- An entry of a bucket contributes its identifying pair to `relPairs`. -/
theorem mem_relPairs {bs : List (String × List RelEntry)}
    {p : String × List RelEntry} {e : RelEntry}
    (hp : p ∈ bs) (he : e ∈ p.2) : entryPair e ∈ relPairs bs :=
  List.mem_flatMap.mpr ⟨p, hp, List.mem_map_of_mem _ he⟩

/-- Buckets whose two-element shape misses a cell leave that cell unchanged
across the whole linking fold. -/
theorem relLinkFold_preserve :
    ∀ (bs : List (String × List RelEntry)) (sch : PrismaSchema) (m0 f0 : String),
      (∀ p ∈ bs, ∀ a b, p.2 = [a, b] →
        ¬(m0 = a.fromModel ∧ f0 = a.fromField) ∧
        ¬(m0 = b.fromModel ∧ f0 = b.fromField)) →
      getField (bs.foldl relLinkStep sch) m0 f0 = getField sch m0 f0 := by
  intro bs
  induction bs with
  | nil =>
    intro sch m0 f0 _
    rfl
  | cons p bs ih =>
    intro sch m0 f0 hdisj
    rw [List.foldl_cons,
        ih (relLinkStep sch p) m0 f0
          (fun q hq => hdisj q (List.mem_cons_of_mem p hq))]
    rcases p with ⟨r, g⟩
    rcases g with _ | ⟨a, _ | ⟨b, _ | ⟨c, rest⟩⟩⟩
    · rfl
    · rfl
    · obtain ⟨ha, hb⟩ :=
        hdisj (r, [a, b]) (List.mem_cons_self _ _) a b rfl
      exact linkPair_getField_ne ha hb
    · rfl

/-- `relPairs` distributes over cons. -/
theorem relPairs_cons (p : String × List RelEntry) (bs : List (String × List RelEntry)) :
    relPairs (p :: bs) = p.2.map entryPair ++ relPairs bs := rfl

/-- `relPairs` distributes over append. -/
theorem relPairs_append (l1 l2 : List (String × List RelEntry)) :
    relPairs (l1 ++ l2) = relPairs l1 ++ relPairs l2 := by
  unfold relPairs
  rw [List.flatMap_append]

/-- When the key is present, `relAdd` keeps the key list unchanged. -/
theorem relAdd_keys_pos (acc : List (String × List RelEntry)) (r : String)
    (e : RelEntry) (hany : acc.any (fun p => p.1 = r) = true) :
    (relAdd acc r e).map Prod.fst = acc.map Prod.fst := by
  unfold relAdd
  rw [if_pos hany, List.map_map]
  apply List.map_congr_left
  intro p _
  by_cases hp : p.1 = r
  · simp [hp]
  · simp [hp]

/-- When the key is new, `relAdd` appends it to the key list. -/
theorem relAdd_keys_neg (acc : List (String × List RelEntry)) (r : String)
    (e : RelEntry) (hany : ¬ acc.any (fun p => p.1 = r) = true) :
    (relAdd acc r e).map Prod.fst = acc.map Prod.fst ++ [r] := by
  unfold relAdd
  rw [if_neg hany]
  simp

/-- `relAdd` preserves distinctness of the keys. -/
theorem relAdd_keys_nodup {acc : List (String × List RelEntry)} {r : String}
    {e : RelEntry} (hnd : (acc.map Prod.fst).Nodup) :
    ((relAdd acc r e).map Prod.fst).Nodup := by
  by_cases hany : acc.any (fun p => p.1 = r) = true
  · rw [relAdd_keys_pos acc r e hany]
    exact hnd
  · rw [relAdd_keys_neg acc r e hany]
    rw [List.nodup_append]
    refine ⟨hnd, List.nodup_singleton r, ?_⟩
    intro x hx hxr
    rw [List.mem_singleton] at hxr
    subst hxr
    rcases List.mem_map.mp hx with ⟨p, hp, hpr⟩
    exact hany (List.any_eq_true.mpr ⟨p, hp, by simp [hpr]⟩)

/-- The per-bucket update map is the identity when no bucket has the key. -/
theorem relAdd_map_id {acc : List (String × List RelEntry)} {r : String}
    {e : RelEntry} (h : ∀ p ∈ acc, p.1 ≠ r) :
    acc.map (fun p => if p.1 = r then (p.1, p.2 ++ [e]) else p) = acc := by
  have heq : acc.map (fun p => if p.1 = r then (p.1, p.2 ++ [e]) else p) =
      acc.map id := by
    apply List.map_congr_left
    intro p hp
    simp [h p hp]
  rw [heq, List.map_id]

/-- Appending into an existing bucket adds exactly the one identifying pair
(up to order). -/
theorem relAdd_pairs_perm_aux (r : String) (e : RelEntry) :
    ∀ (acc : List (String × List RelEntry)), (acc.map Prod.fst).Nodup →
      acc.any (fun p => p.1 = r) = true →
      List.Perm
        (relPairs (acc.map (fun p => if p.1 = r then (p.1, p.2 ++ [e]) else p)))
        (entryPair e :: relPairs acc) := by
  intro acc
  induction acc with
  | nil =>
    intro _ h
    simp at h
  | cons p acc ih =>
    intro hnd hany
    by_cases hp : p.1 = r
    · have hrest : ∀ q ∈ acc, q.1 ≠ r := by
        intro q hq hqr
        rw [List.map_cons, List.nodup_cons] at hnd
        exact hnd.1 ((hqr.trans hp.symm) ▸ List.mem_map_of_mem Prod.fst hq)
      rw [List.map_cons, if_pos hp, relAdd_map_id hrest, relPairs_cons,
          relPairs_cons]
      show List.Perm ((p.2 ++ [e]).map entryPair ++ relPairs acc)
        (entryPair e :: (p.2.map entryPair ++ relPairs acc))
      rw [List.map_append, List.append_assoc]
      show List.Perm (p.2.map entryPair ++ ([entryPair e] ++ relPairs acc))
        (entryPair e :: (p.2.map entryPair ++ relPairs acc))
      rw [List.singleton_append]
      exact List.perm_middle
    · have hany2 : acc.any (fun p => p.1 = r) = true := by
        rw [List.any_cons] at hany
        simpa [hp] using hany
      have hnd2 : (acc.map Prod.fst).Nodup := by
        rw [List.map_cons, List.nodup_cons] at hnd
        exact hnd.2
      rw [List.map_cons, if_neg hp, relPairs_cons, relPairs_cons]
      refine (List.Perm.append_left _ (ih hnd2 hany2)).trans ?_
      exact List.perm_middle

/-- `relAdd` adds exactly the one identifying pair, up to order. -/
theorem relAdd_pairs_perm (acc : List (String × List RelEntry)) (r : String)
    (e : RelEntry) (hnd : (acc.map Prod.fst).Nodup) :
    List.Perm (relPairs (relAdd acc r e)) (entryPair e :: relPairs acc) := by
  unfold relAdd
  by_cases hany : acc.any (fun p => p.1 = r) = true
  · rw [if_pos hany]
    exact relAdd_pairs_perm_aux r e acc hnd hany
  · rw [if_neg hany, relPairs_append]
    show List.Perm (relPairs acc ++ [entryPair e]) (entryPair e :: relPairs acc)
    exact List.perm_append_singleton _ _

/-- Every entry of a bucket of `relAdd` is an old entry of the same key or
the inserted one. -/
theorem relAdd_mem {acc : List (String × List RelEntry)} {r : String}
    {e : RelEntry} {rr : String} {g : List RelEntry}
    (h : (rr, g) ∈ relAdd acc r e) {x : RelEntry} (hx : x ∈ g) :
    (∃ g2, (rr, g2) ∈ acc ∧ x ∈ g2) ∨ x = e := by
  unfold relAdd at h
  by_cases hany : acc.any (fun p => p.1 = r) = true
  · rw [if_pos hany] at h
    rcases List.mem_map.mp h with ⟨p, hp, hpe⟩
    by_cases hpr : p.1 = r
    · rw [if_pos hpr] at hpe
      have h1 : p.1 = rr := congrArg Prod.fst hpe
      have h2 : p.2 ++ [e] = g := congrArg Prod.snd hpe
      rw [← h2] at hx
      rcases List.mem_append.mp hx with hxm | hxm
      · exact Or.inl ⟨p.2, h1 ▸ hp, hxm⟩
      · rw [List.mem_singleton] at hxm
        exact Or.inr hxm
    · rw [if_neg hpr] at hpe
      subst hpe
      exact Or.inl ⟨g, hp, hx⟩
  · rw [if_neg hany] at h
    rcases List.mem_append.mp h with hmem | hmem
    · exact Or.inl ⟨g, hmem, hx⟩
    · rw [List.mem_singleton] at hmem
      injection hmem with h1 h2
      subst h2
      rw [List.mem_singleton] at hx
      exact Or.inr hx

/-- The per-model pass keeps the keys distinct and contributes exactly one
identifying pair per keyed field. -/
theorem relFieldFold (m : PrismaModel) :
    ∀ (fs : List PrismaField) (acc : List (String × List RelEntry)),
      (acc.map Prod.fst).Nodup →
      (((fs.foldl (relFieldStep m) acc).map Prod.fst).Nodup ∧
       List.Perm (relPairs (fs.foldl (relFieldStep m) acc))
         ((fs.filter relKeyed).map (fun f => (m.name, f.name)) ++ relPairs acc)) := by
  intro fs
  induction fs with
  | nil =>
    intro acc hnd
    exact ⟨hnd, by simp⟩
  | cons f fs ih =>
    intro acc hnd
    rw [List.foldl_cons]
    rcases hrn : f.relationName with _ | r
    · have hstep : relFieldStep m acc f = acc := by
        unfold relFieldStep
        rw [hrn]
      have hkey : relKeyed f = false := by
        unfold relKeyed
        rw [hrn]
      have hfilter : (f :: fs).filter relKeyed = fs.filter relKeyed := by
        simp [List.filter_cons, hkey]
      rw [hstep, hfilter]
      exact ih acc hnd
    · by_cases hr : r ≠ ""
      · have hstep : relFieldStep m acc f =
            relAdd acc r ⟨m.name, f.name, relTarget f⟩ := by
          unfold relFieldStep
          simp only [hrn]
          rw [if_pos hr]
        have hkey : relKeyed f = true := by
          unfold relKeyed
          rw [hrn]
          exact decide_eq_true hr
        have hfilter : (f :: fs).filter relKeyed = f :: fs.filter relKeyed := by
          simp [List.filter_cons, hkey]
        rw [hstep, hfilter]
        obtain ⟨hnd2, hperm2⟩ :=
          ih (relAdd acc r ⟨m.name, f.name, relTarget f⟩) (relAdd_keys_nodup hnd)
        refine ⟨hnd2, ?_⟩
        refine hperm2.trans ?_
        refine (List.Perm.append_left _
          (relAdd_pairs_perm acc r _ hnd)).trans ?_
        exact List.perm_middle
      · have hstep : relFieldStep m acc f = acc := by
          unfold relFieldStep
          simp only [hrn]
          rw [if_neg hr]
        have hkey : relKeyed f = false := by
          unfold relKeyed
          rw [hrn]
          exact decide_eq_false hr
        have hfilter : (f :: fs).filter relKeyed = fs.filter relKeyed := by
          simp [List.filter_cons, hkey]
        rw [hstep, hfilter]
        exact ih acc hnd

/-- The whole multimap pass keeps the keys distinct and contributes exactly
the identifying pairs of the schema. -/
theorem relModelFold :
    ∀ (ms : List PrismaModel) (acc : List (String × List RelEntry)),
      (acc.map Prod.fst).Nodup →
      (((ms.foldl (fun acc m => m.fields.foldl (relFieldStep m) acc) acc).map
          Prod.fst).Nodup ∧
       List.Perm
         (relPairs (ms.foldl (fun acc m => m.fields.foldl (relFieldStep m) acc) acc))
         (ms.flatMap fieldPairs ++ relPairs acc)) := by
  intro ms
  induction ms with
  | nil =>
    intro acc hnd
    exact ⟨hnd, by simp⟩
  | cons m ms ih =>
    intro acc hnd
    rw [List.foldl_cons]
    obtain ⟨hnd1, hperm1⟩ := relFieldFold m m.fields acc hnd
    obtain ⟨hnd2, hperm2⟩ :=
      ih (m.fields.foldl (relFieldStep m) acc) hnd1
    refine ⟨hnd2, ?_⟩
    rw [List.flatMap_cons]
    refine hperm2.trans ?_
    refine (List.Perm.append_left _ hperm1).trans ?_
    have hcomm : List.Perm
        (ms.flatMap fieldPairs ++ (fieldPairs m ++ relPairs acc))
        ((fieldPairs m ++ ms.flatMap fieldPairs) ++ relPairs acc) := by
      rw [← List.append_assoc]
      exact List.Perm.append_right _ List.perm_append_comm
    exact hcomm

/-- The identifying pairs of `relationsOf` are exactly those of the schema,
up to order. -/
theorem relationsOf_pairs_perm (s : PrismaSchema) :
    List.Perm (relPairs (relationsOf s)) (schemaPairs s) := by
  obtain ⟨_, hperm⟩ := relModelFold s.models [] (by simp)
  rw [relationsOf_eq]
  rw [show relPairs ([] : List (String × List RelEntry)) = [] from rfl,
      List.append_nil] at hperm
  exact hperm

/-- Origin of a bucket entry through the per-model pass. -/
theorem relFieldFold_mem (m : PrismaModel) :
    ∀ (fs : List PrismaField) (acc : List (String × List RelEntry))
      (rr : String) (g : List RelEntry) (x : RelEntry),
      (rr, g) ∈ fs.foldl (relFieldStep m) acc → x ∈ g →
      (∃ g2, (rr, g2) ∈ acc ∧ x ∈ g2) ∨
      (∃ f ∈ fs, x = ⟨m.name, f.name, relTarget f⟩) := by
  intro fs
  induction fs with
  | nil =>
    intro acc rr g x h hx
    exact Or.inl ⟨g, h, hx⟩
  | cons f fs ih =>
    intro acc rr g x h hx
    rw [List.foldl_cons] at h
    rcases ih (relFieldStep m acc f) rr g x h hx with ⟨g2, hg2, hxg2⟩ | ⟨f2, hf2, hx2⟩
    · rcases hrn : f.relationName with _ | r
      · rw [show relFieldStep m acc f = acc from by
          unfold relFieldStep; rw [hrn]] at hg2
        exact Or.inl ⟨g2, hg2, hxg2⟩
      · by_cases hr : r ≠ ""
        · rw [show relFieldStep m acc f =
              relAdd acc r ⟨m.name, f.name, relTarget f⟩ from by
            unfold relFieldStep; simp only [hrn]; rw [if_pos hr]] at hg2
          rcases relAdd_mem hg2 hxg2 with ⟨g3, hg3, hxg3⟩ | hxe
          · exact Or.inl ⟨g3, hg3, hxg3⟩
          · exact Or.inr ⟨f, List.mem_cons_self f fs, hxe⟩
        · rw [show relFieldStep m acc f = acc from by
            unfold relFieldStep; simp only [hrn]; rw [if_neg hr]] at hg2
          exact Or.inl ⟨g2, hg2, hxg2⟩
    · exact Or.inr ⟨f2, List.mem_cons_of_mem f hf2, hx2⟩

/-- Origin of a bucket entry through the whole multimap pass. -/
theorem relModelFold_mem :
    ∀ (ms : List PrismaModel) (acc : List (String × List RelEntry))
      (rr : String) (g : List RelEntry) (x : RelEntry),
      (rr, g) ∈ ms.foldl (fun acc m => m.fields.foldl (relFieldStep m) acc) acc →
      x ∈ g →
      (∃ g2, (rr, g2) ∈ acc ∧ x ∈ g2) ∨
      (∃ m ∈ ms, ∃ f ∈ m.fields, x = ⟨m.name, f.name, relTarget f⟩) := by
  intro ms
  induction ms with
  | nil =>
    intro acc rr g x h hx
    exact Or.inl ⟨g, h, hx⟩
  | cons m ms ih =>
    intro acc rr g x h hx
    rw [List.foldl_cons] at h
    rcases ih (m.fields.foldl (relFieldStep m) acc) rr g x h hx with
      ⟨g2, hg2, hxg2⟩ | ⟨m2, hm2, hrest⟩
    · rcases relFieldFold_mem m m.fields acc rr g2 x hg2 hxg2 with
        ⟨g3, hg3, hxg3⟩ | ⟨f, hf, hxf⟩
      · exact Or.inl ⟨g3, hg3, hxg3⟩
      · exact Or.inr ⟨m, List.mem_cons_self m ms, f, hf, hxf⟩
    · exact Or.inr ⟨m2, List.mem_cons_of_mem m hm2, hrest⟩

/-- Every entry stored in `relationsOf` names an actual field of an actual
model. -/
theorem relationsOf_mem_origin {s : PrismaSchema} {rr : String}
    {g : List RelEntry} (h : (rr, g) ∈ relationsOf s) {x : RelEntry}
    (hx : x ∈ g) :
    ∃ m ∈ s.models, ∃ f ∈ m.fields,
      x = ⟨m.name, f.name, relTarget f⟩ := by
  rw [relationsOf_eq] at h
  rcases relModelFold_mem s.models [] rr g x h hx with ⟨g2, hg2, _⟩ | hout
  · cases hg2
  · exact hout

/-- With distinct field names, one model contributes distinct pairs. -/
theorem fieldPairs_nodup {m : PrismaModel}
    (h : (m.fields.map (fun f => f.name)).Nodup) : (fieldPairs m).Nodup := by
  have hsub : ((m.fields.filter relKeyed).map (fun f => f.name)).Nodup :=
    List.Nodup.sublist ((List.filter_sublist _).map _) h
  have heq : fieldPairs m =
      ((m.fields.filter relKeyed).map (fun f => f.name)).map
        (fun n => (m.name, n)) := by
    unfold fieldPairs
    rw [List.map_map]
    rfl
  rw [heq]
  exact hsub.map (fun a b hab => congrArg Prod.snd hab)

/-- With distinct model and field names, the schema pairs are distinct. -/
theorem schemaPairs_nodup_aux :
    ∀ (ms : List PrismaModel), (ms.map (fun m => m.name)).Nodup →
      (∀ m ∈ ms, (m.fields.map (fun f => f.name)).Nodup) →
      (ms.flatMap fieldPairs).Nodup := by
  intro ms
  induction ms with
  | nil =>
    intro _ _
    simp
  | cons m ms ih =>
    intro hnd hfs
    rw [List.flatMap_cons, List.nodup_append]
    rw [List.map_cons, List.nodup_cons] at hnd
    refine ⟨fieldPairs_nodup (hfs m (List.mem_cons_self m ms)),
      ih hnd.2 (fun m2 hm2 => hfs m2 (List.mem_cons_of_mem m hm2)), ?_⟩
    intro x hx1 hx2
    have hx1m : x.1 = m.name := by
      unfold fieldPairs at hx1
      rcases List.mem_map.mp hx1 with ⟨f, _, hfx⟩
      rw [← hfx]
    rcases List.mem_flatMap.mp hx2 with ⟨m2, hm2, hxm2⟩
    have hx2m : x.1 = m2.name := by
      unfold fieldPairs at hxm2
      rcases List.mem_map.mp hxm2 with ⟨f, _, hfx⟩
      rw [← hfx]
    exact hnd.1 ((hx1m.symm.trans hx2m) ▸
      List.mem_map_of_mem (fun m => m.name) hm2)

/-- `schemaPairs` is duplicate-free over well-named schemas. -/
theorem schemaPairs_nodup {s : PrismaSchema}
    (hm : (s.models.map (fun m => m.name)).Nodup)
    (hf : ∀ m ∈ s.models, (m.fields.map (fun f => f.name)).Nodup) :
    (schemaPairs s).Nodup :=
  schemaPairs_nodup_aux s.models hm hf

/-- With distinct keys, `find?` by key locates exactly the member. -/
theorem find?_key_eq {β : Type} (key : β → String) :
    ∀ {l : List β}, ((l.map key).Nodup) → ∀ {x : β}, x ∈ l → ∀ {c : String},
      key x = c → l.find? (fun y => key y = c) = some x := by
  intro l
  induction l with
  | nil =>
    intro _ x hx
    cases hx
  | cons a l ih =>
    intro hnd x hx c hc
    rcases List.mem_cons.mp hx with h | h
    · subst h
      exact List.find?_cons_of_pos _ (decide_eq_true hc)
    · rw [List.map_cons, List.nodup_cons] at hnd
      have hane : ¬ key a = c := by
        intro hac
        exact hnd.1 ((hc.trans hac.symm) ▸ List.mem_map_of_mem key h)
      rw [List.find?_cons_of_neg _ (by simp [hane])]
      exact ih hnd.2 h hc

/-- A field of a well-named schema is found by `getField` at its own
coordinates. -/
theorem getField_of_origin {s : PrismaSchema}
    (hm : (s.models.map (fun m => m.name)).Nodup)
    (hf : ∀ m ∈ s.models, (m.fields.map (fun f => f.name)).Nodup)
    {m : PrismaModel} (hmem : m ∈ s.models) {f : PrismaField}
    (hfmem : f ∈ m.fields) :
    getField s m.name f.name = some f := by
  rw [getField_eq_mfind]
  unfold mfind
  rw [find?_key_eq PrismaModel.name hm hmem rfl]
  show m.fields.find? (fun f2 => f2.name = f.name) = some f
  exact find?_key_eq PrismaField.name (hf m hmem) hfmem rfl

/-- C3: over a schema with distinct model names and distinct field names per
model, every two-member relation-name group whose members live in two
distinct models is cross-linked by `buildRelations` — each member field's
`relationToModel` becomes the other member's owning model — while the fields
of every group of any other size are left untouched; concretely, the two
`postsSchema` fields sharing relation name `Posts` (with no foreign key on
either side) end up pointing at each other's model. -/
theorem buildRelations_links_exact_pairs :
    (∀ (s : PrismaSchema),
        (s.models.map (fun m => m.name)).Nodup →
        (∀ m ∈ s.models, (m.fields.map (fun f => f.name)).Nodup) →
        (∀ r e1 e2, (r, [e1, e2]) ∈ relationsOf s →
            e1.fromModel ≠ e2.fromModel →
            ∃ f1 f2,
              getField s e1.fromModel e1.fromField = some f1 ∧
              getField s e2.fromModel e2.fromField = some f2 ∧
              getField (buildRelations s) e1.fromModel e1.fromField =
                some { f1 with relationToModel := some e2.fromModel } ∧
              getField (buildRelations s) e2.fromModel e2.fromField =
                some { f2 with relationToModel := some e1.fromModel }) ∧
        (∀ r g, (r, g) ∈ relationsOf s → g.length ≠ 2 →
            ∀ e ∈ g, getField (buildRelations s) e.fromModel e.fromField =
              getField s e.fromModel e.fromField)) ∧
    ((getField (buildRelations postsSchema) "User" "posts").map
        (fun f => f.relationToModel) = some (some "Post") ∧
     (getField (buildRelations postsSchema) "Post" "author").map
        (fun f => f.relationToModel) = some (some "User")) := by
  refine ⟨?_, by decide, by decide⟩
  intro s hm hf
  have hpairsnd : (relPairs (relationsOf s)).Nodup :=
    ((relationsOf_pairs_perm s).nodup_iff).mpr (schemaPairs_nodup hm hf)
  have habsent : ∀ (L : List (String × List RelEntry)) (e0 : RelEntry),
      (∀ x ∈ relPairs L, x ≠ entryPair e0) →
      ∀ p ∈ L, ∀ a b, p.2 = [a, b] →
        ¬(e0.fromModel = a.fromModel ∧ e0.fromField = a.fromField) ∧
        ¬(e0.fromModel = b.fromModel ∧ e0.fromField = b.fromField) := by
    intro L e0 habs p hp a b hab
    constructor
    · intro hc
      refine habs (entryPair a)
        (mem_relPairs hp (by rw [hab]; exact List.mem_cons_self a [b])) ?_
      unfold entryPair
      rw [← hc.1, ← hc.2]
    · intro hc
      refine habs (entryPair b) (mem_relPairs hp (by rw [hab]; simp)) ?_
      unfold entryPair
      rw [← hc.1, ← hc.2]
  constructor
  · intro r e1 e2 hmem hne
    obtain ⟨m1, hm1, f1, hf1, he1⟩ :=
      relationsOf_mem_origin hmem (List.mem_cons_self e1 [e2])
    obtain ⟨m2, hm2, f2, hf2, he2⟩ := relationsOf_mem_origin hmem
      (show e2 ∈ [e1, e2] from List.mem_cons_of_mem e1 (List.mem_cons_self e2 []))
    have hg1 : getField s e1.fromModel e1.fromField = some f1 := by
      rw [he1]
      exact getField_of_origin hm hf hm1 hf1
    have hg2 : getField s e2.fromModel e2.fromField = some f2 := by
      rw [he2]
      exact getField_of_origin hm hf hm2 hf2
    obtain ⟨l1, l2, hsplit⟩ := List.append_of_mem hmem
    have hpieces := hpairsnd
    rw [hsplit, relPairs_append, relPairs_cons, List.nodup_append,
        List.nodup_append] at hpieces
    obtain ⟨hndl1, ⟨hndmid, hndl2, hdisj2⟩, hdisj1⟩ := hpieces
    have hmid1 : entryPair e1 ∈ (r, [e1, e2]).2.map entryPair :=
      List.mem_map_of_mem entryPair (List.mem_cons_self e1 [e2])
    have hmid2 : entryPair e2 ∈ (r, [e1, e2]).2.map entryPair :=
      List.mem_map_of_mem entryPair (by simp)
    have habs11 : ∀ x ∈ relPairs l1, x ≠ entryPair e1 := by
      intro x hx hxe
      exact hdisj1 hx (hxe ▸ List.mem_append_left _ hmid1)
    have habs12 : ∀ x ∈ relPairs l1, x ≠ entryPair e2 := by
      intro x hx hxe
      exact hdisj1 hx (hxe ▸ List.mem_append_left _ hmid2)
    have habs21 : ∀ x ∈ relPairs l2, x ≠ entryPair e1 := by
      intro x hx hxe
      exact hdisj2 hmid1 (hxe ▸ hx)
    have habs22 : ∀ x ∈ relPairs l2, x ≠ entryPair e2 := by
      intro x hx hxe
      exact hdisj2 hmid2 (hxe ▸ hx)
    rw [buildRelations_eq, hsplit, List.foldl_append, List.foldl_cons]
    have hpre1 : getField (l1.foldl relLinkStep s) e1.fromModel e1.fromField =
        some f1 := by
      rw [relLinkFold_preserve l1 s e1.fromModel e1.fromField
        (habsent l1 e1 habs11)]
      exact hg1
    have hpre2 : getField (l1.foldl relLinkStep s) e2.fromModel e2.fromField =
        some f2 := by
      rw [relLinkFold_preserve l1 s e2.fromModel e2.fromField
        (habsent l1 e2 habs12)]
      exact hg2
    have hmidstep : relLinkStep (l1.foldl relLinkStep s) (r, [e1, e2]) =
        linkPair (l1.foldl relLinkStep s) e1 e2 := rfl
    rw [hmidstep]
    obtain ⟨hlink1, hlink2⟩ := linkPair_links hne hpre1 hpre2
    refine ⟨f1, f2, hg1, hg2, ?_, ?_⟩
    · rw [relLinkFold_preserve l2 _ e1.fromModel e1.fromField
        (habsent l2 e1 habs21)]
      exact hlink1
    · rw [relLinkFold_preserve l2 _ e2.fromModel e2.fromField
        (habsent l2 e2 habs22)]
      exact hlink2
  · intro r g hmem hlen e he
    obtain ⟨l1, l2, hsplit⟩ := List.append_of_mem hmem
    have hpieces := hpairsnd
    rw [hsplit, relPairs_append, relPairs_cons, List.nodup_append,
        List.nodup_append] at hpieces
    obtain ⟨hndl1, ⟨hndmid, hndl2, hdisj2⟩, hdisj1⟩ := hpieces
    have hep_mid : entryPair e ∈ (r, g).2.map entryPair :=
      List.mem_map_of_mem entryPair he
    have habs1 : ∀ x ∈ relPairs l1, x ≠ entryPair e := by
      intro x hx hxe
      exact hdisj1 hx (hxe ▸ List.mem_append_left _ hep_mid)
    have habs2 : ∀ x ∈ relPairs l2, x ≠ entryPair e := by
      intro x hx hxe
      exact hdisj2 hep_mid (hxe ▸ hx)
    rw [buildRelations_eq, hsplit, List.foldl_append, List.foldl_cons]
    have hmidskip : relLinkStep (l1.foldl relLinkStep s) (r, g) =
        l1.foldl relLinkStep s := by
      rcases g with _ | ⟨a, _ | ⟨b, _ | ⟨c, rest⟩⟩⟩
      · rfl
      · rfl
      · exact absurd rfl hlen
      · rfl
    rw [hmidskip,
        relLinkFold_preserve l2 _ e.fromModel e.fromField (habsent l2 e habs2),
        relLinkFold_preserve l1 s e.fromModel e.fromField (habsent l1 e habs1)]

/-- C3 (witness): the linking theorem applied to `postsSchema` and its one
two-member `Posts` group. -/
theorem buildRelations_links_exact_pairs_witness :
    ∃ f1 f2,
      getField postsSchema "User" "posts" = some f1 ∧
      getField postsSchema "Post" "author" = some f2 ∧
      getField (buildRelations postsSchema) "User" "posts" =
        some { f1 with relationToModel := some "Post" } ∧
      getField (buildRelations postsSchema) "Post" "author" =
        some { f2 with relationToModel := some "User" } :=
  (buildRelations_links_exact_pairs.1 postsSchema (by decide) (by decide)).1
    "Posts" ⟨"User", "posts", "Post"⟩ ⟨"Post", "author", "User"⟩
    (by decide) (by decide)

end Cryml
